import Mathlib

/-!
Verification development for the running_app repository.

The definitions below are shallow embeddings of the Python source:
* `src/osm.py` — segment identity assignment (`clean_osm_ids`,
  `assign_segment_ids`) and geometry orientation normalisation
  (`make_sure_geometries_agree_with_start_end_nodes`);
* `src/main.py` — the point-to-point router (`route`,
  `distance_at_end_of_segment`, `get_routing_graph`);
* `src/backend.py` — the accounting store (`store_run`,
  `exists_run_on_date`, `update_ignored_segments`, `ignored_segment_ids`,
  `get_duration_minutes`, `get_run_area_graph`).

Machine floats are modelled as exact rationals (ℚ); Python `None` and
raised exceptions are modelled with `Option`.
-/

namespace RunningApp

/-! ## Decimal rendering of natural numbers

Models Python `str(n)` / pandas `.astype(str)` for non-negative integers:
the usual base-10 representation without leading zeroes. -/

/-- Little-endian base-10 digit list of `n`, with explicit fuel so that the
recursion is structural (and hence kernel-reducible). -/
def decDigitsRev (fuel : Nat) (n : Nat) : List Nat :=
  match fuel with
  | 0 => []
  | fuel + 1 => if n = 0 then [] else n % 10 :: decDigitsRev fuel (n / 10)

/-- Character list of the base-10 representation of `n` (most significant
digit first). -/
def decChars (n : Nat) : List Char :=
  if n = 0 then ['0'] else ((decDigitsRev n n).reverse.map Nat.digitChar)

/-- Decimal string of a natural number, as produced by Python `str`. -/
def decStr (n : Nat) : String := ⟨decChars n⟩

theorem decDigitsRev_eq_digits : ∀ (fuel n : Nat), n ≤ fuel →
    decDigitsRev fuel n = Nat.digits 10 n := by
  intro fuel
  induction fuel with
  | zero =>
    intro n hn
    have : n = 0 := Nat.le_zero.mp hn
    simp [this, decDigitsRev]
  | succ fuel ih =>
    intro n hn
    by_cases h0 : n = 0
    · simp [h0, decDigitsRev]
    · have hpos : 0 < n := Nat.pos_of_ne_zero h0
      have hdiv : n / 10 ≤ fuel := by
        have : n / 10 < n := Nat.div_lt_self hpos (by norm_num)
        omega
      rw [decDigitsRev, if_neg h0, ih (n / 10) hdiv,
        Nat.digits_def' (b := 10) (by norm_num) hpos]

theorem decChars_eq (n : Nat) :
    decChars n = if n = 0 then ['0']
      else ((Nat.digits 10 n).reverse.map Nat.digitChar) := by
  unfold decChars
  by_cases h0 : n = 0
  · simp [h0]
  · rw [if_neg h0, if_neg h0, decDigitsRev_eq_digits n n (le_refl n)]

theorem digitChar_inj {a b : Nat} (ha : a < 10) (hb : b < 10)
    (h : Nat.digitChar a = Nat.digitChar b) : a = b := by
  interval_cases a <;> interval_cases b <;> simp_all [Nat.digitChar]

theorem digitChar_ne_underscore {a : Nat} (ha : a < 10) :
    Nat.digitChar a ≠ '_' := by
  interval_cases a <;> simp [Nat.digitChar]

theorem digitChar_decode {d : Nat} (hd : d < 10) :
    (Nat.digitChar d).toNat - 48 = d := by
  interval_cases d <;> rfl

theorem map_digitChar_decode (l : List Nat) (hl : ∀ d ∈ l, d < 10) :
    (l.map Nat.digitChar).map (fun c => c.toNat - 48) = l := by
  induction l with
  | nil => rfl
  | cons d t ih =>
    simp only [List.map_cons, List.cons.injEq]
    exact ⟨digitChar_decode (hl d (by simp)), ih fun x hx => hl x (by simp [hx])⟩

theorem underscore_not_mem_decChars (n : Nat) : '_' ∉ decChars n := by
  rw [decChars_eq]
  split
  · simp
  · intro hmem
    simp only [List.mem_map, List.mem_reverse] at hmem
    obtain ⟨d, hd, hdc⟩ := hmem
    exact digitChar_ne_underscore (Nat.digits_lt_base (by norm_num) hd) hdc

theorem decChars_ne_zero_chars {n : Nat} (hn : n ≠ 0) :
    (Nat.digits 10 n).reverse.map Nat.digitChar ≠ ['0'] := by
  intro h
  apply hn
  have hlen : (Nat.digits 10 n).length = 1 := by
    have := congrArg List.length h
    simpa using this
  rcases List.length_eq_one.mp hlen with ⟨d, hd⟩
  have hd10 : d < 10 :=
    Nat.digits_lt_base (by norm_num) (by rw [hd]; exact List.mem_singleton_self d)
  have hchar : Nat.digitChar d = '0' := by
    rw [hd] at h
    simpa using h
  have hd0 : d = 0 := by
    have hdec := digitChar_decode hd10
    rw [hchar] at hdec
    simpa using hdec.symm
  have hfin := Nat.ofDigits_digits 10 n
  rw [hd, hd0] at hfin
  simpa [Nat.ofDigits_cons, Nat.ofDigits_nil] using hfin.symm

theorem decChars_inj {m n : Nat} (h : decChars m = decChars n) : m = n := by
  rw [decChars_eq, decChars_eq] at h
  by_cases hm : m = 0 <;> by_cases hn : n = 0
  · exact hm.trans hn.symm
  · exact absurd h.symm (by rw [if_pos hm, if_neg hn]; exact decChars_ne_zero_chars hn)
  · exact absurd h (by rw [if_neg hm, if_pos hn]; exact decChars_ne_zero_chars hm)
  · rw [if_neg hm, if_neg hn] at h
    have hmap : (Nat.digits 10 m).map Nat.digitChar
        = (Nat.digits 10 n).map Nat.digitChar := by
      have := congrArg List.reverse h
      simpa [List.map_reverse] using this
    have hdigits : Nat.digits 10 m = Nat.digits 10 n := by
      have hm' := map_digitChar_decode (Nat.digits 10 m)
        (fun d hd => Nat.digits_lt_base (by norm_num) hd)
      have hn' := map_digitChar_decode (Nat.digits 10 n)
        (fun d hd => Nat.digits_lt_base (by norm_num) hd)
      rw [← hm', ← hn', hmap]
    have := congrArg (Nat.ofDigits 10) hdigits
    have h1 := Nat.ofDigits_digits 10 m
    have h2 := Nat.ofDigits_digits 10 n
    rw [h1, h2] at this
    exact_mod_cast this

/-! ## Splitting at the last separator

`c ++ "_" ++ d` with `d` underscore-free determines `c` and `d` uniquely:
the suffix after the last underscore of the result is exactly `d`. -/

theorem sep_cons_inj {α : Type} {sep : α} :
    ∀ (p q r s : List α), sep ∉ p → sep ∉ q →
      p ++ sep :: r = q ++ sep :: s → p = q ∧ r = s := by
  intro p
  induction p with
  | nil =>
    intro q r s _ hq h
    cases q with
    | nil => simpa using h
    | cons c q' =>
      exfalso
      have : sep = c := by simpa using congrArg (List.head? ·) h
      exact hq (this ▸ List.mem_cons_self c q')
  | cons c p' ih =>
    intro q r s hp hq h
    cases q with
    | nil =>
      exfalso
      have : c = sep := by simpa using congrArg (List.head? ·) h
      exact hp (this ▸ List.mem_cons_self c p')
    | cons c' q' =>
      simp only [List.cons_append, List.cons.injEq] at h
      obtain ⟨hc, ht⟩ := h
      obtain ⟨h1, h2⟩ := ih q' r s (fun hx => hp (List.mem_cons_of_mem c hx))
        (fun hx => hq (List.mem_cons_of_mem c' hx)) ht
      exact ⟨by rw [hc, h1], h2⟩

theorem sep_snoc_inj {α : Type} {sep : α} (a b d e : List α)
    (hd : sep ∉ d) (he : sep ∉ e)
    (h : a ++ sep :: d = b ++ sep :: e) : a = b ∧ d = e := by
  have hrev : d.reverse ++ sep :: a.reverse = e.reverse ++ sep :: b.reverse := by
    have := congrArg List.reverse h
    simpa [List.reverse_append] using this
  obtain ⟨h1, h2⟩ := sep_cons_inj d.reverse e.reverse a.reverse b.reverse
    (by simpa using hd) (by simpa using he) hrev
  constructor
  · have := congrArg List.reverse h2
    simpa using this
  · have := congrArg List.reverse h1
    simpa using this

/-! ## Segment Identity Assigner (`src/osm.py`)

`clean_osm_ids` normalises an OSMnx `osmid` value, which is either a
scalar (`str` or `int`) or a list of scalars (ways merged because no
junction separates them). `assign_segment_ids` then appends the pandas
`groupby("segment_id").cumcount()` occurrence counter. -/

/-- A scalar OSM way identifier: a string or an integer. -/
inductive OsmScalar : Type
  | str (s : String)
  | int (n : Nat)
deriving DecidableEq, Repr

/-- Python `str` applied to a scalar identifier. -/
def OsmScalar.toStr : OsmScalar → String
  | .str s => s
  | .int n => decStr n

/-- The raw `osmid` value attached to an edge by OSMnx:
`Union[str, int, List[int], List[str]]`. -/
inductive OsmId : Type
  | scalar (v : OsmScalar)
  | list (vs : List OsmScalar)
deriving DecidableEq, Repr

/-- Embeds `osm.clean_osm_ids`: a string passes through, an integer is
stringified, and a list is underscore-joined elementwise. -/
def clean_osm_ids : OsmId → String
  | .scalar v => v.toStr
  | .list vs => String.intercalate "_" (vs.map OsmScalar.toStr)

/-- Embeds the pandas `groupby("segment_id").cumcount()` of
`osm.assign_segment_ids`: pairs each cleaned id with the number of earlier
rows having the same cleaned id.  `seen` is the (reversed) prefix of rows
already processed; the source keeps this state implicitly in pandas. -/
def cumcountPairs : List String → List String → List (String × Nat)
  | _, [] => []
  | seen, c :: rest => (c, seen.count c) :: cumcountPairs (c :: seen) rest

/-- Embeds `osm.assign_segment_ids` acting on the `segment_id` column:
clean each raw id, then append `"_" + str(cumcount)`. -/
def assign_segment_ids (ids : List OsmId) : List String :=
  (cumcountPairs [] (ids.map clean_osm_ids)).map
    (fun p => p.1 ++ "_" ++ decStr p.2)

theorem count_le_of_mem_cumcountPairs :
    ∀ (seen l : List String) (p : String × Nat),
      p ∈ cumcountPairs seen l → seen.count p.1 ≤ p.2 := by
  intro seen l
  induction l generalizing seen with
  | nil => intro p hp; simp [cumcountPairs] at hp
  | cons c rest ih =>
    intro p hp
    simp only [cumcountPairs, List.mem_cons] at hp
    rcases hp with hp | hp
    · rw [hp]
    · have h1 := ih (c :: seen) p hp
      have h2 : seen.count p.1 ≤ (c :: seen).count p.1 := by
        by_cases hc : p.1 = c
        · simp [hc, List.count_cons]
        · simp [List.count_cons, hc]
      omega

theorem cumcountPairs_nodup : ∀ (seen l : List String),
    (cumcountPairs seen l).Nodup := by
  intro seen l
  induction l generalizing seen with
  | nil => simp [cumcountPairs]
  | cons c rest ih =>
    simp only [cumcountPairs, List.nodup_cons]
    refine ⟨fun hmem => ?_, ih (c :: seen)⟩
    have := count_le_of_mem_cumcountPairs (c :: seen) rest _ hmem
    simp [List.count_cons] at this

/-- The underscore-and-counter encoding of `(cleaned id, occurrence)` pairs
is injective: the decimal counter contains no underscore, so both
components are recovered from the encoded string. -/
theorem encode_pair_inj {c₁ c₂ : String} {k₁ k₂ : Nat}
    (h : c₁ ++ "_" ++ decStr k₁ = c₂ ++ "_" ++ decStr k₂) :
    c₁ = c₂ ∧ k₁ = k₂ := by
  have hdata : c₁.data ++ '_' :: (decChars k₁) = c₂.data ++ '_' :: (decChars k₂) := by
    have := congrArg String.data h
    simpa [String.data_append, decStr] using this
  obtain ⟨h1, h2⟩ := sep_snoc_inj c₁.data c₂.data (decChars k₁) (decChars k₂)
    (underscore_not_mem_decChars k₁) (underscore_not_mem_decChars k₂) hdata
  exact ⟨String.ext h1, decChars_inj h2⟩

theorem cumcountPairs_get? : ∀ (seen l : List String) (i : Nat), i < l.length →
    (cumcountPairs seen l).get? i =
      some (l.getD i "", seen.count (l.getD i "") + (l.take i).count (l.getD i "")) := by
  intro seen l
  induction l generalizing seen with
  | nil => intro i hi; simp at hi
  | cons c rest ih =>
    intro i hi
    cases i with
    | zero => simp [cumcountPairs]
    | succ j =>
      have hj : j < rest.length := by simpa using hi
      have := ih (c :: seen) j hj
      simp only [cumcountPairs, List.get?_cons_succ, this, List.getD_cons_succ,
        List.take_succ_cons, List.count_cons]
      by_cases hc : rest.getD j "" = c <;> simp [hc, List.count_cons] <;> omega

/-- C2: For every collection of raw edges, the Segment Identity Assigner
produces pairwise-distinct `segment_id` values; each id is the normalised
source identifier (`clean_osm_ids`) followed by an underscore and the
zero-based occurrence counter of that normalised identifier, counted in
encounter order; and, the assigner being a total function of the input
order, re-running on the same input yields identical ids. -/
theorem c2_segment_identity_assigner (ids : List OsmId) :
    (assign_segment_ids ids).Nodup ∧
    (∀ ids', ids' = ids → assign_segment_ids ids' = assign_segment_ids ids) ∧
    (∀ i, i < ids.length →
      (assign_segment_ids ids).get? i =
        some (((ids.map clean_osm_ids).getD i "") ++ "_" ++
          decStr (((ids.map clean_osm_ids).take i).count
            ((ids.map clean_osm_ids).getD i "")))) := by
  refine ⟨?_, fun _ h => by rw [h], ?_⟩
  · apply List.Nodup.map
    · intro p q hpq
      obtain ⟨h1, h2⟩ := encode_pair_inj hpq
      exact Prod.ext h1 h2
    · exact cumcountPairs_nodup [] (ids.map clean_osm_ids)
  · intro i hi
    have hi' : i < (ids.map clean_osm_ids).length := by simpa using hi
    unfold assign_segment_ids
    rw [List.get?_map, cumcountPairs_get? [] (ids.map clean_osm_ids) i hi']
    simp

/-- Witness for C2 at a concrete edge collection mixing list-valued,
integer and string identifiers, including ones whose normalised forms
collide (`[12, 3]` and the raw string `"12_3"`). -/
theorem c2_segment_identity_assigner_witness :
    assign_segment_ids
        [OsmId.list [OsmScalar.int 12, OsmScalar.int 3],
         OsmId.scalar (OsmScalar.int 12),
         OsmId.scalar (OsmScalar.int 12),
         OsmId.scalar (OsmScalar.str "12_3")]
      = ["12_3_0", "12_0", "12_1", "12_3_1"] ∧
    (assign_segment_ids
        [OsmId.list [OsmScalar.int 12, OsmScalar.int 3],
         OsmId.scalar (OsmScalar.int 12),
         OsmId.scalar (OsmScalar.int 12),
         OsmId.scalar (OsmScalar.str "12_3")]).Nodup :=
  ⟨by decide,
    (c2_segment_identity_assigner
      [OsmId.list [OsmScalar.int 12, OsmScalar.int 3],
       OsmId.scalar (OsmScalar.int 12),
       OsmId.scalar (OsmScalar.int 12),
       OsmId.scalar (OsmScalar.str "12_3")]).1⟩

/-! ## Geometry Orientation Normalizer (`src/osm.py`)

Embeds `make_sure_geometries_agree_with_start_end_nodes`.  A geometry
feature carries `start_node`/`end_node`/`segment_id` properties and a
coordinate sequence; the graph supplies each node's `x`/`y` position.
The source also stamps `segment_id` back onto the graph edge inside a
`try/except KeyError` — that step only enriches the graph and never
alters which features are kept or how they are oriented, so the
embedding models the feature output.  A Python `KeyError` on a missing
node, or an `IndexError` on an empty coordinate list, is modelled as the
outer `none`; a dropped feature (`continue`) is `some none`. -/

/-- A GeoJSON feature of the segment geometry collection. -/
structure GeoFeature : Type where
  start_node : Nat
  end_node : Nat
  segment_id : String
  coordinates : List (ℚ × ℚ)
deriving DecidableEq, Repr

/-- The nodes of an OSMnx graph with their stored `x`/`y` positions. -/
structure OsmGraph : Type where
  nodes : List (Nat × ℚ × ℚ)
deriving DecidableEq, Repr

/-- Looks up `graph.nodes[n]`, giving `[node_props["x"], node_props["y"]]`. -/
def nodeXY (g : OsmGraph) (n : Nat) : Option (ℚ × ℚ) :=
  (g.nodes.find? (fun p => p.1 == n)).map (·.2)

/-- One iteration of the feature loop of
`make_sure_geometries_agree_with_start_end_nodes`: compare the first and
last coordinates with the START node's stored position, keep / reverse /
drop accordingly. -/
def processFeature (g : OsmGraph) (feature : GeoFeature) :
    Option (Option GeoFeature) :=
  match nodeXY g feature.start_node with
  | none => none
  | some start_node_lng_lat =>
    match feature.coordinates.head?, feature.coordinates.getLast? with
    | some c0, some cl =>
      let equals_start_of_geom := c0 = start_node_lng_lat
      let equals_end_of_geom := cl = start_node_lng_lat
      if ¬ (equals_start_of_geom ∨ equals_end_of_geom) then some none
      else if equals_end_of_geom then
        some (some {feature with coordinates := feature.coordinates.reverse})
      else some (some feature)
    | _, _ => none

/-- The feature loop over the whole geometry collection: `none` when some
feature makes the source crash, otherwise the list of surviving
(possibly reversed) features in order. -/
def orientFeatures (g : OsmGraph) : List GeoFeature → Option (List GeoFeature)
  | [] => some []
  | f :: rest =>
    match processFeature g f with
    | none => none
    | some none => orientFeatures g rest
    | some (some f') => (orientFeatures g rest).map (f' :: ·)

theorem processFeature_kept {g : OsmGraph} {f f' : GeoFeature} {xy : ℚ × ℚ}
    (hxy : nodeXY g f.start_node = some xy)
    (h : processFeature g f = some (some f')) :
    f'.start_node = f.start_node ∧ f'.coordinates.head? = some xy := by
  unfold processFeature at h
  rw [hxy] at h
  rcases hc0 : f.coordinates.head? with _ | c0 <;> rw [hc0] at h
  · rcases hcl : f.coordinates.getLast? with _ | cl <;> rw [hcl] at h <;> simp at h
  · rcases hcl : f.coordinates.getLast? with _ | cl <;> rw [hcl] at h
    · simp at h
    · simp only at h
      by_cases hne : ¬ (c0 = xy ∨ cl = xy)
      · rw [if_pos hne] at h; simp at h
      · rw [if_neg hne] at h
        by_cases hend : cl = xy
        · rw [if_pos hend] at h
          simp only [Option.some.injEq] at h
          subst h
          refine ⟨rfl, ?_⟩
          simpa [List.head?_reverse, hcl] using congrArg some hend
        · rw [if_neg hend] at h
          simp only [Option.some.injEq] at h
          subst h
          push_neg at hne
          refine ⟨rfl, ?_⟩
          rw [hc0]
          exact congrArg some (hne.resolve_right hend)

theorem orientFeatures_heads {g : OsmGraph} :
    ∀ (feats out : List GeoFeature), orientFeatures g feats = some out →
      ∀ f' ∈ out, ∃ xy, nodeXY g f'.start_node = some xy ∧
        f'.coordinates.head? = some xy := by
  intro feats
  induction feats with
  | nil =>
    intro out h f' hf'
    simp only [orientFeatures, Option.some.injEq] at h
    rw [← h] at hf'
    simp at hf'
  | cons f rest ih =>
    intro out h f' hf'
    unfold orientFeatures at h
    rcases hp : processFeature g f with _ | p <;> rw [hp] at h
    · simp at h
    · rcases p with _ | fkept
      · exact ih out h f' hf'
      · rcases ho : orientFeatures g rest with _ | out' <;> rw [ho] at h
        · simp at h
        · have h' : fkept :: out' = out := by simpa using h
          rw [← h'] at hf'
          rcases List.mem_cons.mp hf' with hf' | hf'
          · subst hf'
            rcases hxy : nodeXY g f.start_node with _ | xy
            · exfalso
              unfold processFeature at hp
              rw [hxy] at hp
              simp at hp
            · have hk := processFeature_kept hxy hp
              exact ⟨xy, hk.1 ▸ hxy, hk.2⟩
          · exact ih out' ho f' hf'

/-- A two-node graph: node 1 at (0, 0) (the feature's `start_node`),
node 2 at (5, 5) (the feature's `end_node`). -/
def c3Graph : OsmGraph := ⟨[(1, 0, 0), (2, 5, 5)]⟩

/-- A feature whose FIRST coordinate equals the `end_node`'s position but
whose last coordinate matches neither endpoint. -/
def c3Feature : GeoFeature := ⟨1, 2, "s", [(5, 5), (9, 9)]⟩

/-- Counterexample to C3 as stated: this feature's first coordinate equals
the `end_node`'s stored position, so the claim says it is kept with its
coordinate sequence reversed; the code only compares the first and LAST
coordinates against the START node's position, finds neither match, and
drops the feature. -/
theorem c3_counterexample_first_coord_at_end_node_dropped :
    nodeXY c3Graph c3Feature.end_node = some (5, 5) ∧
    c3Feature.coordinates.head? = some (5, 5) ∧
    nodeXY c3Graph c3Feature.start_node = some (0, 0) ∧
    processFeature c3Graph c3Feature = some none ∧
    processFeature c3Graph c3Feature ≠
      some (some {c3Feature with coordinates := c3Feature.coordinates.reverse}) := by
  refine ⟨by decide, by decide, by decide, by decide, by decide⟩

/-- C3 amended: orientation is decided by comparing the first and LAST
coordinates of the geometry against the START node's stored position
(the `end_node` position is never consulted): first-coordinate match
(and no last-coordinate match) keeps the feature, a last-coordinate
match keeps it reversed, neither matching drops it; consequently every
surviving feature's first coordinate equals its `start_node`'s
position. -/
theorem c3_orientation_normalizer_amended (g : OsmGraph) :
    (∀ (f : GeoFeature) (xy : ℚ × ℚ), nodeXY g f.start_node = some xy →
      (f.coordinates.head? = some xy → f.coordinates.getLast? ≠ some xy →
        processFeature g f = some (some f)) ∧
      (f.coordinates.getLast? = some xy →
        processFeature g f =
          some (some {f with coordinates := f.coordinates.reverse})) ∧
      (f.coordinates ≠ [] → f.coordinates.head? ≠ some xy →
        f.coordinates.getLast? ≠ some xy → processFeature g f = some none)) ∧
    (∀ (feats out : List GeoFeature), orientFeatures g feats = some out →
      ∀ f' ∈ out, ∃ xy, nodeXY g f'.start_node = some xy ∧
        f'.coordinates.head? = some xy) := by
  constructor
  · intro f xy hxy
    refine ⟨?_, ?_, ?_⟩
    · intro hhead hlast
      have hne : f.coordinates ≠ [] := by
        intro h0; rw [h0] at hhead; simp at hhead
      rcases hcl : f.coordinates.getLast? with _ | cl
      · exact absurd (List.getLast?_eq_none_iff.mp hcl) hne
      · have hclxy : cl ≠ xy := fun h => hlast (h ▸ hcl)
        unfold processFeature
        rw [hxy, hhead, hcl]
        simp only
        rw [if_neg (by simp [hclxy]), if_neg hclxy]
    · intro hlast
      have hne : f.coordinates ≠ [] := by
        intro h0; rw [h0] at hlast; simp at hlast
      rcases hc0 : f.coordinates.head? with _ | c0
      · exact absurd (List.head?_eq_none_iff.mp hc0) hne
      · unfold processFeature
        rw [hxy, hc0, hlast]
        simp only
        rw [if_neg (by simp)]
        simp
    · intro hne hhead hlast
      rcases hc0 : f.coordinates.head? with _ | c0
      · exact absurd (List.head?_eq_none_iff.mp hc0) hne
      · rcases hcl : f.coordinates.getLast? with _ | cl
        · exact absurd (List.getLast?_eq_none_iff.mp hcl) hne
        · have h1 : c0 ≠ xy := fun h => hhead (h ▸ hc0)
          have h2 : cl ≠ xy := fun h => hlast (h ▸ hcl)
          unfold processFeature
          rw [hxy, hc0, hcl]
          simp only
          rw [if_pos (by simp [h1, h2])]
  · exact orientFeatures_heads

/-- Witness for the amended C3 on concrete features: one already oriented,
one stored reversed, one matching neither endpoint. -/
theorem c3_orientation_normalizer_amended_witness :
    (processFeature c3Graph ⟨1, 2, "a", [(0, 0), (3, 3)]⟩ =
      some (some ⟨1, 2, "a", [(0, 0), (3, 3)]⟩)) ∧
    (processFeature c3Graph ⟨1, 2, "b", [(3, 3), (0, 0)]⟩ =
      some (some ⟨1, 2, "b", [(0, 0), (3, 3)]⟩)) ∧
    (processFeature c3Graph ⟨1, 2, "c", [(7, 7), (3, 3)]⟩ = some none) := by
  have h := c3_orientation_normalizer_amended c3Graph
  refine ⟨(h.1 ⟨1, 2, "a", [(0, 0), (3, 3)]⟩ (0, 0) (by decide)).1
      (by decide) (by decide),
    ?_,
    (h.1 ⟨1, 2, "c", [(7, 7), (3, 3)]⟩ (0, 0) (by decide)).2.2
      (by decide) (by decide) (by decide)⟩
  · have h2 := (h.1 ⟨1, 2, "b", [(3, 3), (0, 0)]⟩ (0, 0) (by decide)).2.1
      (by decide)
    simpa using h2

/-! ## Point-to-Point Router (`src/main.py`)

The routable graph is the persisted networkx multigraph.  The source only
ever addresses parallel edges through key `0` (`graph.edges[(u, v, 0)]`,
`graph[u][v][0]`), so an edge list with at most one edge looked up per
unordered node pair is a faithful model of every access the router makes.
Lengths, stored as floats, are modelled as exact rationals. -/

/-- A graph edge: endpoints, `length` attribute, and the optional
`segment_id` attribute (`data.get("segment_id")`). -/
structure Edge : Type where
  u : Nat
  v : Nat
  length : ℚ
  segment_id : Option String
deriving DecidableEq, Repr

/-- The persisted routable graph. -/
structure Graph : Type where
  nodes : List Nat
  edges : List Edge
deriving DecidableEq, Repr

/-- Looks up `graph.edges[(a, b, 0)]["length"]` (undirected: either orientation);
`none` models the `KeyError` on a missing edge. -/
def edgeLength (g : Graph) (a b : Nat) : Option ℚ :=
  (g.edges.find? (fun e => (e.u == a && e.v == b) || (e.u == b && e.v == a))).map
    (·.length)

/-- The undirected neighbourhood of `a`. -/
def neighbors (g : Graph) (a : Nat) : List Nat :=
  g.edges.filterMap (fun e =>
    if e.u == a then some e.v else if e.v == a then some e.u else none)

/-- All simple paths from `a` to `target` avoiding `visited`, with enough
fuel to explore every simple path of the graph. -/
def simplePaths (g : Graph) : Nat → Nat → Nat → List Nat → List (List Nat)
  | 0, a, target, _ => if a == target then [[a]] else []
  | fuel + 1, a, target, visited =>
    if a == target then [[a]]
    else ((neighbors g a).filter (fun b => !((a :: visited).contains b))).bind
      (fun b => (simplePaths g fuel b target (a :: visited)).map (a :: ·))

/-- Computes `list(zip(nodes_in_route, nodes_in_route[1:]))`. -/
def pathEdges (nodes : List Nat) : List (Nat × Nat) := nodes.zip nodes.tail

/-- Look up the `length` of every edge along a node path, recording the
looked-up value next to the edge; `none` models a `KeyError`. -/
def edgesWithLengths (g : Graph) : List (Nat × Nat) → Option (List ((Nat × Nat) × ℚ))
  | [] => some []
  | ab :: rest =>
    match edgeLength g ab.1 ab.2, edgesWithLengths g rest with
    | some w, some ws => some ((ab, w) :: ws)
    | _, _ => none

/-- Total weight of a node path. -/
def pathWeight (g : Graph) (nodes : List Nat) : Option ℚ :=
  (edgesWithLengths g (pathEdges nodes)).map (fun l => (l.map (·.2)).sum)

/-- The running-minimum loop of the router (`min_length_metres` starts at
`inf`, modelled by the `none` accumulator; a strictly smaller total
replaces the current best, so ties keep the first-encountered
candidate).  `none` entries are candidates skipped by the
`except Exception: pass`. -/
def pickBestAux {γ : Type} : Option (γ × ℚ) → List (Option (γ × ℚ)) → Option (γ × ℚ)
  | acc, [] => acc
  | acc, none :: rest => pickBestAux acc rest
  | none, some cw :: rest => pickBestAux (some cw) rest
  | some cw0, some cw :: rest =>
    pickBestAux (if cw.2 < cw0.2 then some cw else some cw0) rest

/-- Select the first-encountered minimum-weight entry. -/
def pickBest {γ : Type} (l : List (Option (γ × ℚ))) : Option (γ × ℚ) :=
  pickBestAux none l

/-- Models `networkx.algorithms.shortest_path(graph, source, target,
weight="length")`: a minimum-weight path between the nodes when one
exists (edge lengths are non-negative, so a minimum-weight simple path
is a shortest path), `none` when the target is unreachable
(`NetworkXNoPath`, caught by the router). -/
def shortest_path (g : Graph) (source target : Nat) : Option (List Nat) :=
  (pickBest ((simplePaths g g.nodes.length source target []).map
    (fun p => (pathWeight g p).map (fun w => (p, w))))).map (·.1)

/-- Embeds `models.SnapDataForRouting`. -/
structure SnapDataForRouting : Type where
  from_segment_id : String
  from_segment_distance_along_segment_metres : ℚ
  from_segment_start_node : Nat
  from_segment_end_node : Nat
  to_segment_id : String
  to_segment_distance_along_segment_metres : ℚ
  to_segment_start_node : Nat
  to_segment_end_node : Nat
deriving DecidableEq, Repr

/-- Embeds `models.SegmentTraversal` (a partially traversed segment). -/
structure SegmentTraversal : Type where
  segment_id : String
  start_distance_metres : ℚ
  end_distance_metres : ℚ
  starts_at_end : Bool
  ends_at_end : Bool
deriving DecidableEq, Repr

/-- Embeds `models.FullSegmentTraversal`. -/
structure FullSegmentTraversal : Type where
  start_node : Nat
  end_node : Nat
  length_metres : ℚ
deriving DecidableEq, Repr

/-- One element of the route list. -/
inductive RouteStep : Type
  | seg (t : SegmentTraversal)
  | full (t : FullSegmentTraversal)
deriving DecidableEq, Repr

/-- Embeds `main.distance_at_end_of_segment`; the float default
`proportion_threshold = 0.95` (the only value the source ever uses) is
inlined as the exact rational 19/20. -/
def distance_at_end_of_segment
    (segment_length_metres distance_along_segment_metres : ℚ) : Bool :=
  decide (distance_along_segment_metres > segment_length_metres * (19 / 20))

/-- The positional-data dictionaries carried by each candidate node pair
in the general routing case. -/
structure SegmentData : Type where
  start_distance_metres : ℚ
  end_distance_metres : ℚ
  starts_at_end : Bool
  ends_at_end : Bool
deriving DecidableEq, Repr

/-- Builds `models.SegmentTraversal(segment_id=sid, **data)`. -/
def SegmentTraversal.ofData (sid : String) (d : SegmentData) : SegmentTraversal :=
  ⟨sid, d.start_distance_metres, d.end_distance_metres,
    d.starts_at_end, d.ends_at_end⟩

/-- The `node_pairs` list of the general routing case: the four candidate
`(source, target)` endpoint pairs together with the start/end segment
data the route would be assembled from. -/
def node_pairs (snap_data : SnapDataForRouting)
    (from_segment_length_metres to_segment_length_metres : ℚ) :
    List (Nat × Nat × SegmentData × SegmentData) :=
  [(snap_data.from_segment_start_node, snap_data.to_segment_start_node,
    ⟨snap_data.from_segment_distance_along_segment_metres, 0, false, false⟩,
    ⟨0, snap_data.to_segment_distance_along_segment_metres, false, false⟩),
   (snap_data.from_segment_start_node, snap_data.to_segment_end_node,
    ⟨snap_data.from_segment_distance_along_segment_metres, 0, false, false⟩,
    ⟨to_segment_length_metres, snap_data.to_segment_distance_along_segment_metres,
      false, false⟩),
   (snap_data.from_segment_end_node, snap_data.to_segment_start_node,
    ⟨snap_data.from_segment_distance_along_segment_metres,
      from_segment_length_metres, false, true⟩,
    ⟨0, snap_data.to_segment_distance_along_segment_metres, false, false⟩),
   (snap_data.from_segment_end_node, snap_data.to_segment_end_node,
    ⟨snap_data.from_segment_distance_along_segment_metres,
      from_segment_length_metres, false, true⟩,
    ⟨to_segment_length_metres, snap_data.to_segment_distance_along_segment_metres,
      false, false⟩)]

/-- The body of the candidate loop: shortest path, its edges (with their
looked-up lengths), and the candidate's total route length
`abs(start) + abs(end) + path`.  `none` models a candidate skipped by
`except Exception: pass` (no path, or a failed edge lookup). -/
def candTotal (g : Graph) (cand : Nat × Nat × SegmentData × SegmentData) :
    Option ((List ((Nat × Nat) × ℚ) × SegmentData × SegmentData) × ℚ) :=
  match cand with
  | (source, target, start_segment_data, end_segment_data) =>
    match shortest_path g source target with
    | none => none
    | some nodes_in_route =>
      match edgesWithLengths g (pathEdges nodes_in_route) with
      | none => none
      | some ews =>
        some ((ews, start_segment_data, end_segment_data),
          (|start_segment_data.start_distance_metres
              - start_segment_data.end_distance_metres|
            + |end_segment_data.start_distance_metres
              - end_segment_data.end_distance_metres|)
          + (ews.map (·.2)).sum)

/-- Embeds the `/route` handler of `src/main.py` (graph already loaded).
`none` models an uncaught exception (a snapped segment absent from the
graph); the full-segment lengths of the general case reuse the values
recorded by `edgesWithLengths`, which are exactly the
`graph.edges[(u, v, 0)]["length"]` lookups the source repeats.  The
`common_nodes.pop()` on the Python set intersection is modelled as the
first shared node in `[from_start, from_end]` order (the claims below
only exercise singleton intersections, where the choice is forced). -/
def route (graph : Graph) (snap_data : SnapDataForRouting) :
    Option (List RouteStep) :=
  if snap_data.from_segment_id = snap_data.to_segment_id then
    match edgeLength graph snap_data.from_segment_start_node
        snap_data.from_segment_end_node with
    | none => none
    | some segment_length_metres =>
      some [RouteStep.seg ⟨snap_data.to_segment_id,
        snap_data.from_segment_distance_along_segment_metres,
        snap_data.to_segment_distance_along_segment_metres,
        distance_at_end_of_segment segment_length_metres
          snap_data.from_segment_distance_along_segment_metres,
        distance_at_end_of_segment segment_length_metres
          snap_data.to_segment_distance_along_segment_metres⟩]
  else
    match edgeLength graph snap_data.from_segment_start_node
        snap_data.from_segment_end_node,
      edgeLength graph snap_data.to_segment_start_node
        snap_data.to_segment_end_node with
    | some from_segment_length_metres, some to_segment_length_metres =>
      match ([snap_data.from_segment_start_node,
          snap_data.from_segment_end_node].filter
          (fun n => [snap_data.to_segment_start_node,
            snap_data.to_segment_end_node].contains n)).head? with
      | some common_node =>
        some [RouteStep.seg
          (if common_node = snap_data.from_segment_end_node then
            ⟨snap_data.from_segment_id,
              snap_data.from_segment_distance_along_segment_metres,
              from_segment_length_metres, false, true⟩
          else
            ⟨snap_data.from_segment_id,
              snap_data.from_segment_distance_along_segment_metres,
              0, false, false⟩),
        RouteStep.seg
          (if common_node = snap_data.to_segment_start_node then
            ⟨snap_data.to_segment_id, 0,
              snap_data.to_segment_distance_along_segment_metres, false,
              distance_at_end_of_segment to_segment_length_metres
                snap_data.to_segment_distance_along_segment_metres⟩
          else
            ⟨snap_data.to_segment_id, to_segment_length_metres,
              snap_data.to_segment_distance_along_segment_metres,
              true, false⟩)]
      | none =>
        match pickBest ((node_pairs snap_data from_segment_length_metres
            to_segment_length_metres).map (candTotal graph)) with
        | none => some []
        | some ((min_length_path, sd, ed), _) =>
          if min_length_path.isEmpty then some []
          else
            some (RouteStep.seg
                (SegmentTraversal.ofData snap_data.from_segment_id sd) ::
              (min_length_path.map
                (fun pe => RouteStep.full ⟨pe.1.1, pe.1.2, pe.2⟩)
              ++ [RouteStep.seg
                (SegmentTraversal.ofData snap_data.to_segment_id ed)]))
    | _, _ => none

/-- The length contributed by a route step: `|start - end|` for a partial
traversal, the full length for an intermediate segment. -/
def stepLength : RouteStep → ℚ
  | .seg t => |t.start_distance_metres - t.end_distance_metres|
  | .full t => t.length_metres

/-- Summed partial and full segment lengths of a route. -/
def routeLength (steps : List RouteStep) : ℚ := (steps.map stepLength).sum

theorem pickBestAux_nil {γ : Type} (acc : Option (γ × ℚ)) :
    pickBestAux acc [] = acc := by
  rcases acc with _ | cw <;> rfl

theorem pickBestAux_cons_none {γ : Type} (acc : Option (γ × ℚ))
    (rest : List (Option (γ × ℚ))) :
    pickBestAux acc (none :: rest) = pickBestAux acc rest := by
  rcases acc with _ | cw <;> rfl

theorem pickBestAux_none_cons_some {γ : Type} (cw : γ × ℚ)
    (rest : List (Option (γ × ℚ))) :
    pickBestAux none (some cw :: rest) = pickBestAux (some cw) rest := rfl

theorem pickBestAux_some_cons_some {γ : Type} (cw0 cw : γ × ℚ)
    (rest : List (Option (γ × ℚ))) :
    pickBestAux (some cw0) (some cw :: rest) =
      pickBestAux (if cw.2 < cw0.2 then some cw else some cw0) rest := rfl

theorem pickBestAux_none {γ : Type} :
    ∀ (l : List (Option (γ × ℚ))) (acc : Option (γ × ℚ)),
      pickBestAux acc l = none ↔ acc = none ∧ ∀ o ∈ l, o = none := by
  intro l
  induction l with
  | nil => intro acc; simp [pickBestAux_nil]
  | cons o rest ih =>
    intro acc
    rcases o with _ | cw
    · rw [pickBestAux_cons_none, ih]
      simp
    · rcases acc with _ | cw0
      · rw [pickBestAux_none_cons_some, ih]
        simp
      · rw [pickBestAux_some_cons_some]
        constructor
        · intro h
          rcases (ih _).mp h with ⟨hacc, _⟩
          by_cases hlt : cw.2 < cw0.2 <;> simp [hlt] at hacc
        · intro ⟨h, _⟩
          exact absurd h (by simp)

theorem pickBestAux_spec {γ : Type} :
    ∀ (l : List (Option (γ × ℚ))) (acc : Option (γ × ℚ)) (c : γ) (w : ℚ),
      pickBestAux acc l = some (c, w) →
      (acc = some (c, w) ∧ ∀ d v, some (d, v) ∈ l → w ≤ v) ∨
      (∃ l₁ l₂, l = l₁ ++ some (c, w) :: l₂ ∧
        (∀ d v, some (d, v) ∈ l₁ → w < v) ∧
        (∀ c0 w0, acc = some (c0, w0) → w < w0) ∧
        (∀ d v, some (d, v) ∈ l₂ → w ≤ v)) := by
  intro l
  induction l with
  | nil =>
    intro acc c w h
    left
    rw [pickBestAux_nil] at h
    exact ⟨h, by simp⟩
  | cons o rest ih =>
    intro acc c w h
    rcases o with _ | ⟨d0, v0⟩
    · rw [pickBestAux_cons_none] at h
      have h' : pickBestAux acc rest = some (c, w) := h
      rcases ih acc c w h' with ⟨hacc, hall⟩ | ⟨l₁, l₂, heq, h1, hacc, h2⟩
      · left
        refine ⟨hacc, fun d v hdv => ?_⟩
        rcases List.mem_cons.mp hdv with hdv | hdv
        · exact absurd hdv.symm (by simp)
        · exact hall d v hdv
      · right
        exact ⟨none :: l₁, l₂, by rw [heq]; rfl,
          fun d v hdv => h1 d v (by
            rcases List.mem_cons.mp hdv with hdv | hdv
            · exact absurd hdv.symm (by simp)
            · exact hdv),
          hacc, h2⟩
    · rcases acc with _ | ⟨c0, w0⟩
      · rw [pickBestAux_none_cons_some] at h
        have h' : pickBestAux (some (d0, v0)) rest = some (c, w) := h
        rcases ih _ c w h' with ⟨hacc, hall⟩ | ⟨l₁, l₂, heq, h1, hacc, h2⟩
        · right
          have hd : d0 = c ∧ v0 = w := by
            have := hacc
            simp only [Option.some.injEq, Prod.mk.injEq] at this
            exact this
          refine ⟨[], rest, ?_, by simp, by simp, hall⟩
          rw [hd.1, hd.2]
          rfl
        · right
          refine ⟨some (d0, v0) :: l₁, l₂, by rw [heq]; rfl, ?_, by simp, h2⟩
          intro d v hdv
          rcases List.mem_cons.mp hdv with hdv | hdv
          · have : d0 = d ∧ v0 = v := by
              simp only [Option.some.injEq, Prod.mk.injEq] at hdv
              exact ⟨hdv.1.symm, hdv.2.symm⟩
            rw [← this.2]
            exact hacc d0 v0 rfl
          · exact h1 d v hdv
      · rw [pickBestAux_some_cons_some] at h
        by_cases hlt : v0 < w0
        · have h' : pickBestAux (some (d0, v0)) rest = some (c, w) := by
            have heq' : (if (d0, v0).2 < (c0, w0).2 then some (d0, v0)
                else some (c0, w0)) = some (d0, v0) := if_pos hlt
            rwa [heq'] at h
          rcases ih _ c w h' with ⟨hacc, hall⟩ | ⟨l₁, l₂, heq, h1, hacc, h2⟩
          · right
            have hd : d0 = c ∧ v0 = w := by
              simp only [Option.some.injEq, Prod.mk.injEq] at hacc
              exact hacc
            refine ⟨[], rest, ?_, by simp, ?_, hall⟩
            · rw [hd.1, hd.2]
              rfl
            · intro c0' w0' hacc'
              have : c0' = c0 ∧ w0' = w0 := by
                simp only [Option.some.injEq, Prod.mk.injEq] at hacc'
                exact ⟨hacc'.1.symm, hacc'.2.symm⟩
              rw [this.2, ← hd.2]
              exact hlt
          · right
            have hwv0 : w < v0 := hacc d0 v0 rfl
            refine ⟨some (d0, v0) :: l₁, l₂, by rw [heq]; rfl, ?_, ?_, h2⟩
            · intro d v hdv
              rcases List.mem_cons.mp hdv with hdv | hdv
              · have : d0 = d ∧ v0 = v := by
                  simp only [Option.some.injEq, Prod.mk.injEq] at hdv
                  exact ⟨hdv.1.symm, hdv.2.symm⟩
                rw [← this.2]
                exact hwv0
              · exact h1 d v hdv
            · intro c0' w0' hacc'
              have : w0' = w0 := by
                simp only [Option.some.injEq, Prod.mk.injEq] at hacc'
                exact hacc'.2.symm
              rw [this]
              exact lt_trans hwv0 hlt
        · have h' : pickBestAux (some (c0, w0)) rest = some (c, w) := by
            have heq' : (if (d0, v0).2 < (c0, w0).2 then some (d0, v0)
                else some (c0, w0)) = some (c0, w0) := if_neg hlt
            rwa [heq'] at h
          rcases ih _ c w h' with ⟨hacc, hall⟩ | ⟨l₁, l₂, heq, h1, hacc, h2⟩
          · left
            refine ⟨hacc, fun d v hdv => ?_⟩
            rcases List.mem_cons.mp hdv with hdv | hdv
            · have hv : d0 = d ∧ v0 = v := by
                simp only [Option.some.injEq, Prod.mk.injEq] at hdv
                exact ⟨hdv.1.symm, hdv.2.symm⟩
              have hw : w = w0 := by
                simp only [Option.some.injEq, Prod.mk.injEq] at hacc
                exact hacc.2.symm
              rw [← hv.2, hw]
              exact le_of_not_lt hlt
            · exact hall d v hdv
          · right
            have hww0 : w < w0 := hacc c0 w0 rfl
            refine ⟨some (d0, v0) :: l₁, l₂, by rw [heq]; rfl, ?_, ?_, h2⟩
            · intro d v hdv
              rcases List.mem_cons.mp hdv with hdv | hdv
              · have : d0 = d ∧ v0 = v := by
                  simp only [Option.some.injEq, Prod.mk.injEq] at hdv
                  exact ⟨hdv.1.symm, hdv.2.symm⟩
                rw [← this.2]
                exact lt_of_lt_of_le hww0 (le_of_not_lt hlt)
              · exact h1 d v hdv
            · intro c0' w0' hacc'
              have : w0' = w0 := by
                simp only [Option.some.injEq, Prod.mk.injEq] at hacc'
                exact hacc'.2.symm
              rw [this]
              exact hww0

theorem pickBest_none_iff {γ : Type} (l : List (Option (γ × ℚ))) :
    pickBest l = none ↔ ∀ o ∈ l, o = none := by
  unfold pickBest
  rw [pickBestAux_none]
  simp

theorem pickBest_spec {γ : Type} {l : List (Option (γ × ℚ))} {c : γ} {w : ℚ}
    (h : pickBest l = some (c, w)) :
    ∃ l₁ l₂, l = l₁ ++ some (c, w) :: l₂ ∧
      (∀ d v, some (d, v) ∈ l₁ → w < v) ∧
      (∀ d v, some (d, v) ∈ l₂ → w ≤ v) := by
  rcases pickBestAux_spec l none c w h with ⟨hacc, _⟩ | ⟨l₁, l₂, heq, h1, _, h2⟩
  · exact absurd hacc (by simp)
  · exact ⟨l₁, l₂, heq, h1, h2⟩

theorem pickBest_mem {γ : Type} {l : List (Option (γ × ℚ))} {c : γ} {w : ℚ}
    (h : pickBest l = some (c, w)) : some (c, w) ∈ l := by
  obtain ⟨l₁, l₂, heq, _, _⟩ := pickBest_spec h
  rw [heq]
  simp

theorem pickBest_min {γ : Type} {l : List (Option (γ × ℚ))} {c : γ} {w : ℚ}
    (h : pickBest l = some (c, w)) : ∀ d v, some (d, v) ∈ l → w ≤ v := by
  obtain ⟨l₁, l₂, heq, h1, h2⟩ := pickBest_spec h
  intro d v hdv
  rw [heq] at hdv
  rcases List.mem_append.mp hdv with hdv | hdv
  · exact le_of_lt (h1 d v hdv)
  · rcases List.mem_cons.mp hdv with hdv | hdv
    · have : w = v := by
        simp only [Option.some.injEq, Prod.mk.injEq] at hdv
        exact hdv.2.symm
      exact le_of_eq this
    · exact h2 d v hdv

theorem simplePaths_head_getLast {g : Graph} :
    ∀ (fuel a target : Nat) (visited : List Nat) (p : List Nat),
      p ∈ simplePaths g fuel a target visited →
      p.head? = some a ∧ p.getLast? = some target := by
  intro fuel
  induction fuel with
  | zero =>
    intro a target visited p hp
    unfold simplePaths at hp
    by_cases hat : a == target
    · rw [if_pos hat] at hp
      have hp' : p = [a] := by simpa using hp
      have : a = target := by simpa using hat
      rw [hp', this]
      exact ⟨rfl, rfl⟩
    · rw [if_neg hat] at hp
      simp at hp
  | succ fuel ih =>
    intro a target visited p hp
    unfold simplePaths at hp
    by_cases hat : a == target
    · rw [if_pos hat] at hp
      have hp' : p = [a] := by simpa using hp
      have : a = target := by simpa using hat
      rw [hp', this]
      exact ⟨rfl, rfl⟩
    · rw [if_neg hat] at hp
      rcases List.mem_bind.mp hp with ⟨b, _, hmem⟩
      rcases List.mem_map.mp hmem with ⟨q, hq, hpq⟩
      obtain ⟨hqhead, hqlast⟩ := ih b target (a :: visited) q hq
      rcases q with _ | ⟨b', t⟩
      · simp at hqhead
      · rw [← hpq]
        refine ⟨rfl, ?_⟩
        rw [List.getLast?_cons_cons]
        exact hqlast

theorem edgesWithLengths_length {g : Graph} :
    ∀ (l : List (Nat × Nat)) (ews : List ((Nat × Nat) × ℚ)),
      edgesWithLengths g l = some ews → ews.length = l.length := by
  intro l
  induction l with
  | nil =>
    intro ews h
    simp only [edgesWithLengths, Option.some.injEq] at h
    rw [← h]
    rfl
  | cons ab rest ih =>
    intro ews h
    unfold edgesWithLengths at h
    rcases h1 : edgeLength g ab.1 ab.2 with _ | w <;> rw [h1] at h
    · simp at h
    · rcases h2 : edgesWithLengths g rest with _ | ws <;> rw [h2] at h
      · simp at h
      · simp only [Option.some.injEq] at h
        rw [← h]
        simp [ih ws h2]

theorem shortest_path_mem {g : Graph} {s t : Nat} {nodes : List Nat}
    (h : shortest_path g s t = some nodes) :
    nodes ∈ simplePaths g g.nodes.length s t [] ∧
      nodes.head? = some s ∧ nodes.getLast? = some t := by
  unfold shortest_path at h
  rcases hpb : pickBest ((simplePaths g g.nodes.length s t []).map
      (fun p => (pathWeight g p).map (fun w => (p, w)))) with _ | pw
  · rw [hpb] at h
    exact Option.noConfusion h
  · rw [hpb] at h
    have hnodes : pw.1 = nodes := by simpa using h
    have hmem := pickBest_mem (l := (simplePaths g g.nodes.length s t []).map
      (fun p => (pathWeight g p).map (fun w => (p, w)))) (c := pw.1) (w := pw.2)
      (by rw [hpb])
    rcases List.mem_map.mp hmem with ⟨q, hq, hqeq⟩
    rcases hw : pathWeight g q with _ | w0 <;> rw [hw] at hqeq
    · simp at hqeq
    · have hqp : q = pw.1 := by
        have h' : q = pw.1 ∧ w0 = pw.2 := by
          simpa [Prod.ext_iff] using hqeq
        exact h'.1
      rw [hnodes] at hqp
      rw [← hqp]
      exact ⟨hq, simplePaths_head_getLast g.nodes.length s t [] q hq⟩

theorem candTotal_some {g : Graph} {cand : Nat × Nat × SegmentData × SegmentData}
    {x : List ((Nat × Nat) × ℚ) × SegmentData × SegmentData} {w : ℚ}
    (h : candTotal g cand = some (x, w)) :
    ∃ nodes, shortest_path g cand.1 cand.2.1 = some nodes ∧
      edgesWithLengths g (pathEdges nodes) = some x.1 ∧
      x.2.1 = cand.2.2.1 ∧ x.2.2 = cand.2.2.2 ∧
      w = (|cand.2.2.1.start_distance_metres - cand.2.2.1.end_distance_metres|
          + |cand.2.2.2.start_distance_metres - cand.2.2.2.end_distance_metres|)
        + (x.1.map (·.2)).sum := by
  rcases cand with ⟨source, target, sd, ed⟩
  simp only [candTotal] at h
  split at h
  · exact Option.noConfusion h
  · rename_i nodes hsp
    split at h
    · exact Option.noConfusion h
    · rename_i ews hew
      simp only [Option.some.injEq, Prod.mk.injEq] at h
      obtain ⟨hx, hw⟩ := h
      refine ⟨nodes, hsp, ?_, ?_, ?_, ?_⟩
      · rw [← hx]
        exact hew
      · rw [← hx]
      · rw [← hx]
      · rw [← hx, ← hw]

/-- A path between two distinct nodes has at least one edge, so the
recorded edge list of a successful candidate is non-empty. -/
theorem candTotal_edges_ne_nil {g : Graph}
    {cand : Nat × Nat × SegmentData × SegmentData}
    {x : List ((Nat × Nat) × ℚ) × SegmentData × SegmentData} {w : ℚ}
    (hne : cand.1 ≠ cand.2.1) (h : candTotal g cand = some (x, w)) :
    x.1 ≠ [] := by
  obtain ⟨nodes, hsp, hew, -, -, -⟩ := candTotal_some h
  obtain ⟨-, hhead, hlast⟩ := shortest_path_mem hsp
  intro hnil
  have hlen := edgesWithLengths_length _ _ hew
  rw [hnil] at hlen
  rcases nodes with _ | ⟨a, t⟩
  · simp at hhead
  · rcases t with _ | ⟨b, t'⟩
    · have h1 : a = cand.1 := by simpa using hhead
      have h2 : a = cand.2.1 := by simpa using hlast
      exact hne (h1 ▸ h2)
    · simp [pathEdges] at hlen

/-- C5: when both snapped points lie on the same `segment_id`, the router
returns exactly one partial traversal from the first point's distance to
the second's, with each `at_end` flag true exactly when the respective
distance exceeds 95% of the segment's length. -/
theorem c5_same_segment_routing (g : Graph) (snap : SnapDataForRouting) (L : ℚ)
    (h_same : snap.from_segment_id = snap.to_segment_id)
    (h_len : edgeLength g snap.from_segment_start_node
      snap.from_segment_end_node = some L) :
    route g snap = some [RouteStep.seg ⟨snap.to_segment_id,
      snap.from_segment_distance_along_segment_metres,
      snap.to_segment_distance_along_segment_metres,
      decide (snap.from_segment_distance_along_segment_metres > L * (95 / 100)),
      decide (snap.to_segment_distance_along_segment_metres > L * (95 / 100))⟩] := by
  have h95 : (19 / 20 : ℚ) = 95 / 100 := by norm_num
  simp only [route, if_pos h_same, h_len, distance_at_end_of_segment, h95]

/-- The 50-metre segment `S` of the spec's same-segment example. -/
def c5Graph : Graph := ⟨[1, 2], [⟨1, 2, 50, some "S"⟩]⟩

/-- Both points snapped to `S`, at 10m and 40m. -/
def c5Snap : SnapDataForRouting := ⟨"S", 10, 1, 2, "S", 40, 1, 2⟩

/-- Witness for C5: distances 10m and 40m on the 50m segment yield the
single traversal `{S, 10, 40, false, false}`. -/
theorem c5_same_segment_routing_witness :
    edgeLength c5Graph 1 2 = some 50 ∧
    route c5Graph c5Snap = some [RouteStep.seg ⟨"S", 10, 40, false, false⟩] := by
  refine ⟨by decide, ?_⟩
  have h := c5_same_segment_routing c5Graph c5Snap 50 rfl (by decide)
  rw [h]
  norm_num [c5Snap]

/-- C6: when the two snapped points lie on distinct segments whose node
sets share a node, the router returns exactly two partial traversals —
the first exits the start segment from its snapped distance toward the
shared node, the second enters the end segment from the shared node up
to its snapped distance — and in particular, when the shared node is the
first segment's `end_node` and the second segment's `start_node`, the
first traversal has `ends_at_end = true` and the second has
`starts_at_end = false`. -/
theorem c6_adjacent_segment_routing (g : Graph) (snap : SnapDataForRouting)
    (fromLen toLen : ℚ) (c : Nat)
    (h_ne : snap.from_segment_id ≠ snap.to_segment_id)
    (h_fl : edgeLength g snap.from_segment_start_node
      snap.from_segment_end_node = some fromLen)
    (h_tl : edgeLength g snap.to_segment_start_node
      snap.to_segment_end_node = some toLen)
    (h_pick : ([snap.from_segment_start_node, snap.from_segment_end_node].filter
      (fun n => [snap.to_segment_start_node,
        snap.to_segment_end_node].contains n)).head? = some c) :
    route g snap = some [
      RouteStep.seg (if c = snap.from_segment_end_node then
        ⟨snap.from_segment_id,
          snap.from_segment_distance_along_segment_metres, fromLen, false, true⟩
      else
        ⟨snap.from_segment_id,
          snap.from_segment_distance_along_segment_metres, 0, false, false⟩),
      RouteStep.seg (if c = snap.to_segment_start_node then
        ⟨snap.to_segment_id, 0,
          snap.to_segment_distance_along_segment_metres, false,
          distance_at_end_of_segment toLen
            snap.to_segment_distance_along_segment_metres⟩
      else
        ⟨snap.to_segment_id, toLen,
          snap.to_segment_distance_along_segment_metres, true, false⟩)] ∧
    (c = snap.from_segment_end_node → c = snap.to_segment_start_node →
      route g snap = some [
        RouteStep.seg ⟨snap.from_segment_id,
          snap.from_segment_distance_along_segment_metres,
          fromLen, false, true⟩,
        RouteStep.seg ⟨snap.to_segment_id, 0,
          snap.to_segment_distance_along_segment_metres, false,
          distance_at_end_of_segment toLen
            snap.to_segment_distance_along_segment_metres⟩]) := by
  have hroute : route g snap = some [
      RouteStep.seg (if c = snap.from_segment_end_node then
        ⟨snap.from_segment_id,
          snap.from_segment_distance_along_segment_metres, fromLen, false, true⟩
      else
        ⟨snap.from_segment_id,
          snap.from_segment_distance_along_segment_metres, 0, false, false⟩),
      RouteStep.seg (if c = snap.to_segment_start_node then
        ⟨snap.to_segment_id, 0,
          snap.to_segment_distance_along_segment_metres, false,
          distance_at_end_of_segment toLen
            snap.to_segment_distance_along_segment_metres⟩
      else
        ⟨snap.to_segment_id, toLen,
          snap.to_segment_distance_along_segment_metres, true, false⟩)] := by
    simp only [route, if_neg h_ne, h_fl, h_tl, h_pick]
  refine ⟨hroute, fun h1 h2 => ?_⟩
  rw [hroute, if_pos h1, if_pos h2]

/-- Two segments `A = (1, 2)` (10m) and `B = (2, 3)` (20m) sharing
node 2. -/
def c6Graph : Graph := ⟨[1, 2, 3], [⟨1, 2, 10, some "A"⟩, ⟨2, 3, 20, some "B"⟩]⟩

/-- Snapped 4m along `A` and 5m along `B`; the shared node 2 is the
"end" of `A` and the "start" of `B`. -/
def c6Snap : SnapDataForRouting := ⟨"A", 4, 1, 2, "B", 5, 2, 3⟩

/-- Witness for C6: the shared-node route exits `A` with
`ends_at_end = true` and enters `B` with `starts_at_end = false`. -/
theorem c6_adjacent_segment_routing_witness :
    route c6Graph c6Snap = some [
      RouteStep.seg ⟨"A", 4, 10, false, true⟩,
      RouteStep.seg ⟨"B", 0, 5, false, false⟩] := by
  have h := (c6_adjacent_segment_routing c6Graph c6Snap 10 20 2
    (by decide) (by decide) (by decide) (by decide)).2 rfl rfl
  rw [h]
  norm_num [distance_at_end_of_segment, c6Snap]

/-- C7: for snapped points on distinct, non-adjacent segments with no
connecting path between any of the four candidate endpoint pairs, the
router returns the empty route sequence (`some []`: a normal return, not
a raised exception, which the model renders as `none`). -/
theorem c7_unreachable_empty_route (g : Graph) (snap : SnapDataForRouting)
    (fromLen toLen : ℚ)
    (h_ne : snap.from_segment_id ≠ snap.to_segment_id)
    (h_fl : edgeLength g snap.from_segment_start_node
      snap.from_segment_end_node = some fromLen)
    (h_tl : edgeLength g snap.to_segment_start_node
      snap.to_segment_end_node = some toLen)
    (h_disj1 : snap.from_segment_start_node ≠ snap.to_segment_start_node)
    (h_disj2 : snap.from_segment_start_node ≠ snap.to_segment_end_node)
    (h_disj3 : snap.from_segment_end_node ≠ snap.to_segment_start_node)
    (h_disj4 : snap.from_segment_end_node ≠ snap.to_segment_end_node)
    (h_nopath : ∀ cand ∈ node_pairs snap fromLen toLen,
      shortest_path g cand.1 cand.2.1 = none) :
    route g snap = some [] := by
  have hpb : pickBest ((node_pairs snap fromLen toLen).map (candTotal g))
      = none := by
    rw [pickBest_none_iff]
    intro o ho
    rcases List.mem_map.mp ho with ⟨cand, hcand, hco⟩
    rcases cand with ⟨source, target, sd, ed⟩
    have hsp := h_nopath _ hcand
    rw [← hco]
    simp only [candTotal]
    rw [hsp]
  simp only [route, if_neg h_ne, h_fl, h_tl, List.filter, List.contains,
    h_disj1, h_disj2, h_disj3, h_disj4]
  simp only [List.head?, hpb]
  simp [List.elem, beq_eq_false_iff_ne.mpr h_disj1,
    beq_eq_false_iff_ne.mpr h_disj2, beq_eq_false_iff_ne.mpr h_disj3,
    beq_eq_false_iff_ne.mpr h_disj4, hpb]

/-- Two disconnected segments: `a = (1, 2)` and `b = (3, 4)`. -/
def c7Graph : Graph := ⟨[1, 2, 3, 4], [⟨1, 2, 10, some "a"⟩, ⟨3, 4, 10, some "b"⟩]⟩

/-- Snapped points on the two disconnected segments. -/
def c7Snap : SnapDataForRouting := ⟨"a", 2, 1, 2, "b", 3, 3, 4⟩

/-- Witness for C7 on the two-component graph: every candidate endpoint
pair is unreachable and the route comes back empty. -/
theorem c7_unreachable_empty_route_witness :
    (∀ cand ∈ node_pairs c7Snap 10 10, shortest_path c7Graph cand.1 cand.2.1 = none) ∧
    route c7Graph c7Snap = some [] := by
  refine ⟨by decide, ?_⟩
  exact c7_unreachable_empty_route c7Graph c7Snap 10 10 (by decide) (by decide)
    (by decide) (by decide) (by decide) (by decide) (by decide) (by decide)

/-- C1: in the general routing case (distinct segments sharing no node)
with at least one reachable candidate endpoint pair, the router scans the
four candidate pairs in order, skips the unreachable ones, and picks the
candidate minimising (remaining start-segment length) + (remaining
end-segment length) + (shortest-path edge lengths) — strictly earlier
candidates have strictly larger totals, so ties keep the
first-encountered pair.  The result is a partial traversal of the start
segment, one full traversal per shortest-path edge, and a partial
traversal of the end segment, and its summed lengths equal the minimum
total. -/
theorem c1_general_case_routing (g : Graph) (snap : SnapDataForRouting)
    (fromLen toLen : ℚ)
    (h_ne : snap.from_segment_id ≠ snap.to_segment_id)
    (h_fl : edgeLength g snap.from_segment_start_node
      snap.from_segment_end_node = some fromLen)
    (h_tl : edgeLength g snap.to_segment_start_node
      snap.to_segment_end_node = some toLen)
    (h_disj1 : snap.from_segment_start_node ≠ snap.to_segment_start_node)
    (h_disj2 : snap.from_segment_start_node ≠ snap.to_segment_end_node)
    (h_disj3 : snap.from_segment_end_node ≠ snap.to_segment_start_node)
    (h_disj4 : snap.from_segment_end_node ≠ snap.to_segment_end_node)
    (h_reach : ∃ cand ∈ node_pairs snap fromLen toLen, candTotal g cand ≠ none) :
    ∃ ews sd ed w l₁ l₂,
      pickBest ((node_pairs snap fromLen toLen).map (candTotal g))
        = some ((ews, sd, ed), w) ∧
      (node_pairs snap fromLen toLen).map (candTotal g)
        = l₁ ++ some ((ews, sd, ed), w) :: l₂ ∧
      (∀ r v, some (r, v) ∈ l₁ → w < v) ∧
      (∀ r v, some (r, v) ∈ (node_pairs snap fromLen toLen).map (candTotal g)
        → w ≤ v) ∧
      w = (|sd.start_distance_metres - sd.end_distance_metres|
          + |ed.start_distance_metres - ed.end_distance_metres|)
        + (ews.map (·.2)).sum ∧
      route g snap = some (RouteStep.seg
          (SegmentTraversal.ofData snap.from_segment_id sd) ::
        (ews.map (fun pe => RouteStep.full ⟨pe.1.1, pe.1.2, pe.2⟩)
          ++ [RouteStep.seg
            (SegmentTraversal.ofData snap.to_segment_id ed)])) ∧
      routeLength (RouteStep.seg
          (SegmentTraversal.ofData snap.from_segment_id sd) ::
        (ews.map (fun pe => RouteStep.full ⟨pe.1.1, pe.1.2, pe.2⟩)
          ++ [RouteStep.seg
            (SegmentTraversal.ofData snap.to_segment_id ed)])) = w := by
  rcases h_reach with ⟨cand0, hc0mem, hc0⟩
  rcases hpb : pickBest ((node_pairs snap fromLen toLen).map (candTotal g))
      with _ | xw
  · exact absurd ((pickBest_none_iff _).mp hpb _
      (List.mem_map_of_mem _ hc0mem)) hc0
  rcases xw with ⟨⟨ews, sd, ed⟩, w⟩
  obtain ⟨l₁, l₂, hsplit, hlt, _⟩ := pickBest_spec hpb
  have hmin := pickBest_min hpb
  have hchosen := pickBest_mem hpb
  rcases List.mem_map.mp hchosen with ⟨cand, hcmem, hceq⟩
  have hne' : cand.1 ≠ cand.2.1 := by
    simp only [node_pairs, List.mem_cons, List.not_mem_nil, or_false] at hcmem
    rcases hcmem with h | h | h | h <;> subst h
    · exact h_disj1
    · exact h_disj2
    · exact h_disj3
    · exact h_disj4
  have hews : ews ≠ [] := candTotal_edges_ne_nil hne' hceq
  obtain ⟨nodes, hsp, hew, hsd, hed, hw⟩ := candTotal_some hceq
  have hw' : w = (|sd.start_distance_metres - sd.end_distance_metres|
      + |ed.start_distance_metres - ed.end_distance_metres|)
      + (ews.map (·.2)).sum := by
    rw [hw, ← hsd, ← hed]
  have hroute : route g snap = some (RouteStep.seg
      (SegmentTraversal.ofData snap.from_segment_id sd) ::
      (ews.map (fun pe => RouteStep.full ⟨pe.1.1, pe.1.2, pe.2⟩)
        ++ [RouteStep.seg
          (SegmentTraversal.ofData snap.to_segment_id ed)])) := by
    simp only [route, if_neg h_ne, h_fl, h_tl]
    simp [List.elem, List.find?, h_disj1, h_disj2, h_disj3, h_disj4,
      beq_eq_false_iff_ne.mpr h_disj1, beq_eq_false_iff_ne.mpr h_disj2,
      beq_eq_false_iff_ne.mpr h_disj3, beq_eq_false_iff_ne.mpr h_disj4,
      hpb, List.isEmpty_iff, hews]
  have hlen : routeLength (RouteStep.seg
      (SegmentTraversal.ofData snap.from_segment_id sd) ::
      (ews.map (fun pe => RouteStep.full ⟨pe.1.1, pe.1.2, pe.2⟩)
        ++ [RouteStep.seg
          (SegmentTraversal.ofData snap.to_segment_id ed)])) = w := by
    rw [hw']
    simp only [routeLength, stepLength, SegmentTraversal.ofData, List.map_cons,
      List.map_append, List.map_map, List.sum_cons, List.sum_append,
      List.map_cons, List.sum_cons, List.sum_nil]
    have hcomp : (stepLength ∘ fun pe : (Nat × Nat) × ℚ =>
        RouteStep.full ⟨pe.1.1, pe.1.2, pe.2⟩) = fun pe => pe.2 :=
      funext fun pe => rfl
    rw [hcomp]
    simp only [List.map_nil, List.sum_nil, add_zero]
    ring
  exact ⟨ews, sd, ed, w, l₁, l₂, rfl, hsplit, hlt, hmin, hw', hroute, hlen⟩

/-- The spec's 4-node square graph N1-N2-N3-N4-N1, each edge 10m. -/
def c1Graph : Graph :=
  ⟨[1, 2, 3, 4], [⟨1, 2, 10, some "a"⟩, ⟨2, 3, 10, some "r"⟩,
    ⟨3, 4, 10, some "b"⟩, ⟨4, 1, 10, some "s"⟩]⟩

/-- Start 2m along edge N1-N2, end 3m along edge N3-N4. -/
def c1Snap : SnapDataForRouting := ⟨"a", 2, 1, 2, "b", 3, 3, 4⟩

/-- Witness for C1 on the square graph: the router picks the shorter
direction around the square (total 2 + 10 + 7 = 19, via endpoint pair
(N1, N4)) and returns partial `a`, full N1-N4, partial `b`. -/
theorem c1_general_case_routing_witness :
    (∃ cand ∈ node_pairs c1Snap 10 10, candTotal c1Graph cand ≠ none) ∧
    route c1Graph c1Snap = some [
      RouteStep.seg ⟨"a", 2, 0, false, false⟩,
      RouteStep.full ⟨1, 4, 10⟩,
      RouteStep.seg ⟨"b", 10, 3, false, false⟩] ∧
    (∃ ews sd ed w l₁ l₂,
      pickBest ((node_pairs c1Snap 10 10).map (candTotal c1Graph))
        = some ((ews, sd, ed), w) ∧
      (node_pairs c1Snap 10 10).map (candTotal c1Graph)
        = l₁ ++ some ((ews, sd, ed), w) :: l₂ ∧
      (∀ r v, some (r, v) ∈ l₁ → w < v) ∧
      (∀ r v, some (r, v) ∈ (node_pairs c1Snap 10 10).map (candTotal c1Graph)
        → w ≤ v) ∧
      w = (|sd.start_distance_metres - sd.end_distance_metres|
          + |ed.start_distance_metres - ed.end_distance_metres|)
        + (ews.map (·.2)).sum ∧
      route c1Graph c1Snap = some (RouteStep.seg
          (SegmentTraversal.ofData c1Snap.from_segment_id sd) ::
        (ews.map (fun pe => RouteStep.full ⟨pe.1.1, pe.1.2, pe.2⟩)
          ++ [RouteStep.seg
            (SegmentTraversal.ofData c1Snap.to_segment_id ed)])) ∧
      routeLength (RouteStep.seg
          (SegmentTraversal.ofData c1Snap.from_segment_id sd) ::
        (ews.map (fun pe => RouteStep.full ⟨pe.1.1, pe.1.2, pe.2⟩)
          ++ [RouteStep.seg
            (SegmentTraversal.ofData c1Snap.to_segment_id ed)])) = w) := by
  have hreach : ∃ cand ∈ node_pairs c1Snap 10 10,
      candTotal c1Graph cand ≠ none := by
    refine ⟨(1, 3, ⟨2, 0, false, false⟩, ⟨0, 3, false, false⟩),
      by simp [node_pairs, c1Snap], ?_⟩
    simp [candTotal, shortest_path, simplePaths, neighbors, pathWeight,
      pathEdges, edgesWithLengths, edgeLength, pickBest, pickBestAux,
      c1Graph, List.elem, List.find?]
  refine ⟨hreach, ?_,
    c1_general_case_routing c1Graph c1Snap 10 10 (by decide) (by decide)
      (by decide) (by decide) (by decide) (by decide) (by decide) hreach⟩
  simp [route, c1Graph, c1Snap, node_pairs, candTotal, shortest_path,
    simplePaths, neighbors, pathWeight, pathEdges, edgesWithLengths,
    edgeLength, pickBest, pickBestAux, List.elem, List.find?,
    SegmentTraversal.ofData]
  norm_num [pickBestAux, abs_sub_comm]

/-! ## Graph loading and the Ignored-Segment Filter
(`src/backend.py` `get_run_area_graph`, `src/main.py` `get_routing_graph`)

`RunningDatabase.get_run_area_graph` is decorated `@lru_cache(maxsize=1)`;
the cache therefore holds the single most recently loaded graph OBJECT
(including a cached `None` for a missing graph), keyed by
`(username, area_name)`.  `get_routing_graph` with `respect_ignored=True`
calls `graph.remove_edges_from(...)`, which mutates that very object in
place — the model reflects the aliasing by updating the cache slot with
the filtered graph.  The persisted store (the `graph` column of
`run_areas`) is never written. -/

/-- The graph-loading state: the persisted per-area graphs and the
single-slot `lru_cache`. -/
structure GraphBackend : Type where
  store : List ((String × String) × Graph)
  cache : Option ((String × String) × Option Graph)
deriving DecidableEq, Repr

/-- Reading the persisted `graph` column for `(username, area_name)`. -/
def lookupStore (s : GraphBackend) (k : String × String) : Option Graph :=
  (s.store.find? (fun p => decide (p.1 = k))).map (·.2)

/-- Embeds `backend.get_run_area_graph` with its `lru_cache(maxsize=1)`:
a hit returns the cached object unchanged; a miss loads from the store
and replaces the single cache slot. -/
def get_run_area_graph (s : GraphBackend) (k : String × String) :
    Option Graph × GraphBackend :=
  match s.cache with
  | some (k0, r) =>
    if k0 = k then (r, s)
    else (lookupStore s k, { s with cache := some (k, lookupStore s k) })
  | none => (lookupStore s k, { s with cache := some (k, lookupStore s k) })

/-- The edge removal of `main.get_routing_graph`: drop every edge whose
`segment_id` attribute is in the ignored set (`data.get("segment_id")`
of an edge without the attribute is `None`, which is never in the list
of ignored ids). -/
def remove_ignored_edges (g : Graph) (ignored_segment_ids : List String) : Graph :=
  { g with edges := g.edges.filter (fun e =>
      !(match e.segment_id with
        | some sid => ignored_segment_ids.contains sid
        | none => false)) }

/-- Embeds `main.get_routing_graph`.  When `respect_ignored` is set, the
edges are removed from the graph object held by the cache (the Python
`remove_edges_from` mutates it in place), so the cache slot ends up
holding the filtered graph. -/
def get_routing_graph (s : GraphBackend) (k : String × String)
    (ignored_segment_ids : List String) (respect_ignored : Bool) :
    Option Graph × GraphBackend :=
  match get_run_area_graph s k with
  | (none, s') => (none, s')
  | (some graph, s') =>
    if respect_ignored then
      (some (remove_ignored_edges graph ignored_segment_ids),
        { s' with
          cache := some (k, some (remove_ignored_edges graph ignored_segment_ids)) })
    else (some graph, s')

/-- The stored graph of the C4 scenario: edges `s1` and `s2`. -/
def c4Graph : Graph := ⟨[1, 2, 3], [⟨1, 2, 10, some "s1"⟩, ⟨2, 3, 12, some "s2"⟩]⟩

/-- One persisted area, cold cache. -/
def c4Backend : GraphBackend := ⟨[(("alice", "town"), c4Graph)], none⟩

/-- C4 (code bug): after a filtered load with `s1` ignored, the persisted
store still holds the full graph, but a subsequent load of the same
area returns the cached, mutated graph from which edge `s1` is gone —
contradicting the claim that a subsequent load still contains every
stored edge. -/
theorem c4_filtered_load_corrupts_subsequent_load :
    (⟨1, 2, 10, some "s1"⟩ : Edge) ∈ c4Graph.edges ∧
    lookupStore (get_routing_graph c4Backend ("alice", "town") ["s1"] true).2
      ("alice", "town") = some c4Graph ∧
    (get_run_area_graph
        (get_routing_graph c4Backend ("alice", "town") ["s1"] true).2
        ("alice", "town")).1
      = some ⟨[1, 2, 3], [⟨2, 3, 12, some "s2"⟩]⟩ ∧
    (get_run_area_graph
        (get_routing_graph c4Backend ("alice", "town") ["s1"] true).2
        ("alice", "town")).1 ≠ some c4Graph := by
  refine ⟨by decide, by decide, by decide, by decide⟩

/-! ## Traversal Accounting Store (`src/backend.py`)

The relational tables relevant to the claims — `logged_runs`,
`segment_traversals` and `ignored_segments` — are modelled as row lists
in insertion order.  `uuid4()` run ids are modelled by a fresh-counter
(`next_id`); only their uniqueness matters to any query.  SQLite compares
the TEXT `date` column bytewise, which for ASCII strings is the
code-point lexicographic order implemented by `charsLe`. -/

/-- Bytewise (code-point lexicographic) string comparison, as SQLite's
TEXT ordering performs on the `date` column. -/
def charsLe : List Char → List Char → Bool
  | [], _ => true
  | _ :: _, [] => false
  | c :: cs, d :: ds =>
    if c.toNat < d.toNat then true
    else if d.toNat < c.toNat then false
    else charsLe cs ds

/-- Compares `a <= b` on TEXT values. -/
def strLe (a b : String) : Bool := charsLe a.data b.data

/-- A row of the `logged_runs` table. -/
structure LoggedRunRow : Type where
  id : Nat
  username : String
  area_name : String
  date : String
  distance_miles : ℚ
  duration_minutes : Option ℚ
  comments : Option String
  linestring : Option String
deriving DecidableEq, Repr

/-- A row of the `segment_traversals` table. -/
structure TraversalRow : Type where
  run_id : Nat
  segment_id : String
  traversals : Nat
deriving DecidableEq, Repr

/-- A row of the `ignored_segments` table. -/
structure IgnoredRow : Type where
  username : String
  area_name : String
  segment_id : String
deriving DecidableEq, Repr

/-- Embeds `models.BaseRunArea` (the part of a run area every query keys on). -/
structure BaseRunArea : Type where
  username : String
  area_name : String
deriving DecidableEq, Repr

/-- Embeds `models.SegmentCollection`. -/
structure SegmentCollection : Type where
  username : String
  area_name : String
  segment_ids : List String
deriving DecidableEq, Repr

/-- Embeds `models.LoggedRun` (a run submission; `segment_traversals` is a dict,
so its keys are unique). -/
structure LoggedRun : Type where
  date : String
  distance_miles : ℚ
  duration : Option String
  comments : Option String
  linestring : Option String
  allow_multiple : Bool
  segment_traversals : List (String × Nat)
deriving DecidableEq, Repr

/-- The store state. -/
structure RunningDatabase : Type where
  logged_runs : List LoggedRunRow
  segment_traversals : List TraversalRow
  ignored_segments : List IgnoredRow
  next_id : Nat
deriving DecidableEq, Repr

/-- Embeds `backend.make_date_clause` as the row predicate its SQL clause
expresses (`1 = 1` / `date <= ?` / `date >= ?` / `BETWEEN`). -/
def dateFilter (start_date end_date : Option String) (date : String) : Bool :=
  match start_date, end_date with
  | none, none => true
  | none, some e => strLe date e
  | some s, none => strLe s date
  | some s, some e => strLe s date && strLe date e

/-- Insert a joined row into a list sorted by date. -/
def insertByDate (x : String × String × Nat) :
    List (String × String × Nat) → List (String × String × Nat)
  | [] => [x]
  | y :: ys => if strLe x.1 y.1 then x :: y :: ys else y :: insertByDate x ys

/-- Models `ORDER BY date ASC` on the joined rows (insertion sort on the date
column). -/
def orderByDate (l : List (String × String × Nat)) :
    List (String × String × Nat) :=
  l.foldr insertByDate []

/-- Embeds `backend.runs_in_date_range`: join `segment_traversals` with
the date/user/area-filtered `logged_runs` on `run_id = id`, returning
`(date, segment_id, traversals)` rows ordered by date ascending. -/
def runs_in_date_range (db : RunningDatabase) (run_area : BaseRunArea)
    (start_date end_date : Option String) : List (String × String × Nat) :=
  orderByDate ((db.segment_traversals.map (fun st =>
    (db.logged_runs.filter (fun lr =>
      dateFilter start_date end_date lr.date
        && decide (lr.username = run_area.username)
        && decide (lr.area_name = run_area.area_name)
        && decide (st.run_id = lr.id))).map
      (fun lr => (lr.date, st.segment_id, st.traversals)))).flatten)

/-- Embeds `backend.run_on_date`. -/
def run_on_date (db : RunningDatabase) (run_area : BaseRunArea)
    (date : String) : List (String × String × Nat) :=
  runs_in_date_range db run_area (some date) (some date)

/-- Embeds `backend.exists_run_on_date`. -/
def exists_run_on_date (db : RunningDatabase) (run_area : BaseRunArea)
    (date : String) : Bool :=
  !(run_on_date db run_area date).isEmpty

/-- Embeds `backend.get_duration_minutes`: Python slices
`duration[:2]`, `[3:5]`, `[6:8]`, `[9:]` parsed by `int(...)` and
combined as `hours * 60 + minutes + seconds / 60 + ms / 6000`.
`none` models the `ValueError` a non-numeric slice raises (uncaught in
the source). `int()` accepts exactly non-empty digit strings here (signs
and whitespace never occur in a duration). -/
def parseIntDigits (cs : List Char) : Option Nat :=
  if cs.isEmpty then none
  else if cs.all (fun c => c.isDigit) then
    some (cs.foldl (fun acc c => 10 * acc + (c.toNat - 48)) 0)
  else none

def get_duration_minutes (duration : String) : Option ℚ :=
  match parseIntDigits (duration.data.take 2),
      parseIntDigits ((duration.data.drop 3).take 2),
      parseIntDigits ((duration.data.drop 6).take 2),
      parseIntDigits (duration.data.drop 9) with
  | some hours, some minutes, some seconds, some ms =>
    some ((hours : ℚ) * 60 + (minutes : ℚ) + (seconds : ℚ) / 60 + (ms : ℚ) / 6000)
  | _, _, _, _ => none

/-- The duration stored by `store_run`: a `None` duration raises
`TypeError`, which is caught and stored as NULL (`some none`); a string
that fails to parse raises an uncaught `ValueError` (`none`). -/
def storedDurationMinutes : Option String → Option (Option ℚ)
  | none => some none
  | some d => (get_duration_minutes d).map some

/-- Embeds `backend.store_run`: reject with a 400 outcome when a run
already exists on the date and `allow_multiple` is off; otherwise insert
the `logged_runs` row (with a fresh id) and one `segment_traversals` row
per dict entry, and return 200. -/
def store_run (db : RunningDatabase) (run_area : BaseRunArea)
    (run : LoggedRun) : Option (RunningDatabase × Nat) :=
  if !run.allow_multiple && exists_run_on_date db run_area run.date then
    some (db, 400)
  else
    match storedDurationMinutes run.duration with
    | none => none
    | some duration_minutes =>
      some ({ db with
        logged_runs := db.logged_runs ++ [⟨db.next_id, run_area.username,
          run_area.area_name, run.date, run.distance_miles, duration_minutes,
          run.comments, run.linestring⟩],
        segment_traversals := db.segment_traversals
          ++ run.segment_traversals.map (fun p => ⟨db.next_id, p.1, p.2⟩),
        next_id := db.next_id + 1 }, 200)

/-- Embeds `backend.ignored_segment_ids`. -/
def ignored_segment_ids (db : RunningDatabase) (run_area : BaseRunArea) :
    List String :=
  (db.ignored_segments.filter (fun r =>
    decide (r.username = run_area.username)
      && decide (r.area_name = run_area.area_name))).map (·.segment_id)

/-- Embeds `backend.remove_from_ignored_segments` (the `DELETE ... WHERE
segment_id IN (...)` statement; a no-op on an empty id list). -/
def remove_from_ignored_segments (db : RunningDatabase)
    (segment_collection : SegmentCollection) : RunningDatabase :=
  if segment_collection.segment_ids.isEmpty then db
  else { db with ignored_segments := db.ignored_segments.filter (fun r =>
    !(decide (r.username = segment_collection.username)
      && decide (r.area_name = segment_collection.area_name)
      && segment_collection.segment_ids.contains r.segment_id)) }

/-- Embeds `backend.add_to_ignored_segments` (a no-op on an empty id list). -/
def add_to_ignored_segments (db : RunningDatabase)
    (segment_collection : SegmentCollection) : RunningDatabase :=
  if segment_collection.segment_ids.isEmpty then db
  else { db with ignored_segments := (db.ignored_segments
    ++ segment_collection.segment_ids.map
      (fun sid => ⟨segment_collection.username,
        segment_collection.area_name, sid⟩)) }

/-- Embeds `backend.update_ignored_segments`: read the currently ignored
set, add the target ids not in it, then remove the target ids that were
in it. -/
def update_ignored_segments (db : RunningDatabase)
    (segment_collection : SegmentCollection) : RunningDatabase :=
  let run_area : BaseRunArea :=
    ⟨segment_collection.username, segment_collection.area_name⟩
  let currently_ignored_segment_ids := ignored_segment_ids db run_area
  let new_ignored_segment_ids := segment_collection.segment_ids.filter
    (fun sid => !(currently_ignored_segment_ids.contains sid))
  let db1 := add_to_ignored_segments db
    ⟨segment_collection.username, segment_collection.area_name,
      new_ignored_segment_ids⟩
  let segment_ids_to_no_longer_ignore := segment_collection.segment_ids.filter
    (fun sid => currently_ignored_segment_ids.contains sid)
  remove_from_ignored_segments db1
    ⟨segment_collection.username, segment_collection.area_name,
      segment_ids_to_no_longer_ignore⟩

theorem mem_ignored_iff (db : RunningDatabase) (area : BaseRunArea) (s : String) :
    s ∈ ignored_segment_ids db area ↔
      (⟨area.username, area.area_name, s⟩ : IgnoredRow) ∈ db.ignored_segments := by
  unfold ignored_segment_ids
  simp only [List.mem_map, List.mem_filter]
  constructor
  · rintro ⟨r, ⟨hr, hcond⟩, hs⟩
    rcases r with ⟨u, a, sid⟩
    simp only [Bool.and_eq_true, decide_eq_true_eq] at hcond
    have h1 : u = area.username := hcond.1
    have h2 : a = area.area_name := hcond.2
    have h3 : sid = s := hs
    rw [← h1, ← h2, ← h3]
    exact hr
  · intro hr
    exact ⟨⟨area.username, area.area_name, s⟩, ⟨hr, by simp⟩, rfl⟩

theorem mem_add_ignored (db : RunningDatabase) (sc : SegmentCollection)
    (r : IgnoredRow) :
    r ∈ (add_to_ignored_segments db sc).ignored_segments ↔
      r ∈ db.ignored_segments ∨
        ∃ sid ∈ sc.segment_ids, r = ⟨sc.username, sc.area_name, sid⟩ := by
  unfold add_to_ignored_segments
  by_cases he : sc.segment_ids.isEmpty
  · have h0 : sc.segment_ids = [] := by simpa [List.isEmpty_iff] using he
    simp [he, h0]
  · simp only [he, Bool.false_eq_true, if_false, List.mem_append, List.mem_map]
    constructor
    · rintro (hr | ⟨sid, hsid, hr⟩)
      · exact Or.inl hr
      · exact Or.inr ⟨sid, hsid, hr.symm⟩
    · rintro (hr | ⟨sid, hsid, hr⟩)
      · exact Or.inl hr
      · exact Or.inr ⟨sid, hsid, hr.symm⟩

theorem mem_remove_ignored (db : RunningDatabase) (sc : SegmentCollection)
    (r : IgnoredRow) :
    r ∈ (remove_from_ignored_segments db sc).ignored_segments ↔
      r ∈ db.ignored_segments ∧ ¬(r.username = sc.username ∧
        r.area_name = sc.area_name ∧ r.segment_id ∈ sc.segment_ids) := by
  unfold remove_from_ignored_segments
  by_cases he : sc.segment_ids.isEmpty
  · have h0 : sc.segment_ids = [] := by simpa [List.isEmpty_iff] using he
    simp [he, h0]
  · simp only [he, Bool.false_eq_true, if_false, List.mem_filter,
      Bool.not_eq_true', Bool.and_eq_false_iff, decide_eq_false_iff_not]
    constructor
    · rintro ⟨hr, hcond⟩
      refine ⟨hr, fun ⟨h1, h2, h3⟩ => ?_⟩
      rcases hcond with (h | h) | h
      · exact h h1
      · exact h h2
      · exact absurd h3 (by simpa using h)
    · rintro ⟨hr, hcond⟩
      refine ⟨hr, ?_⟩
      by_cases h1 : r.username = sc.username
      · by_cases h2 : r.area_name = sc.area_name
        · refine Or.inr ?_
          have h3 : r.segment_id ∉ sc.segment_ids :=
            fun hmem => hcond ⟨h1, h2, hmem⟩
          simpa using h3
        · exact Or.inl (Or.inr h2)
      · exact Or.inl (Or.inl h1)

theorem toggle_mem (db : RunningDatabase) (sc : SegmentCollection) (s : String) :
    s ∈ ignored_segment_ids (update_ignored_segments db sc)
      ⟨sc.username, sc.area_name⟩ ↔
    ((s ∈ ignored_segment_ids db ⟨sc.username, sc.area_name⟩ ∧
        s ∉ sc.segment_ids) ∨
      (s ∈ sc.segment_ids ∧
        s ∉ ignored_segment_ids db ⟨sc.username, sc.area_name⟩)) := by
  simp only [mem_ignored_iff]
  unfold update_ignored_segments
  rw [mem_remove_ignored, mem_add_ignored]
  simp only [List.mem_filter, IgnoredRow.mk.injEq, Bool.not_eq_true',
    true_and, and_true, eq_self_iff_true]
  by_cases hs : s ∈ sc.segment_ids <;>
    by_cases hr : (⟨sc.username, sc.area_name, s⟩ : IgnoredRow)
        ∈ db.ignored_segments <;>
    simp [hs, hr, mem_ignored_iff]

/-- C9: the ignored-segment toggle replaces the ignored set by its
symmetric difference with the (duplicate-free) target set — target ids
not currently ignored become ignored, target ids currently ignored stop
being ignored — and hence toggling the same set twice restores the
original ignored set. -/
theorem c9_ignored_toggle_symmetric_difference (db : RunningDatabase)
    (sc : SegmentCollection) (h_nodup : sc.segment_ids.Nodup) :
    (∀ s, s ∈ ignored_segment_ids (update_ignored_segments db sc)
        ⟨sc.username, sc.area_name⟩ ↔
      ((s ∈ ignored_segment_ids db ⟨sc.username, sc.area_name⟩ ∧
          s ∉ sc.segment_ids) ∨
        (s ∈ sc.segment_ids ∧
          s ∉ ignored_segment_ids db ⟨sc.username, sc.area_name⟩))) ∧
    (∀ s, s ∈ ignored_segment_ids
        (update_ignored_segments (update_ignored_segments db sc) sc)
        ⟨sc.username, sc.area_name⟩ ↔
      s ∈ ignored_segment_ids db ⟨sc.username, sc.area_name⟩) := by
  refine ⟨fun s => toggle_mem db sc s, fun s => ?_⟩
  rw [toggle_mem, toggle_mem]
  by_cases hs : s ∈ sc.segment_ids <;>
    by_cases hr : s ∈ ignored_segment_ids db ⟨sc.username, sc.area_name⟩ <;>
    simp [hs, hr]

/-- A store ignoring `x` and `y` for alice/town. -/
def c9Db : RunningDatabase :=
  ⟨[], [], [⟨"alice", "town", "x"⟩, ⟨"alice", "town", "y"⟩], 0⟩

/-- Toggle `{y, z}`: `y` stops being ignored, `z` becomes ignored. -/
def c9Sc : SegmentCollection := ⟨"alice", "town", ["y", "z"]⟩

/-- Witness for C9: toggling `{y, z}` over `{x, y}` leaves `{x, z}`
ignored, and toggling again restores `{x, y}`. -/
theorem c9_ignored_toggle_symmetric_difference_witness :
    ignored_segment_ids (update_ignored_segments c9Db c9Sc)
      ⟨"alice", "town"⟩ = ["x", "z"] ∧
    ignored_segment_ids
      (update_ignored_segments (update_ignored_segments c9Db c9Sc) c9Sc)
      ⟨"alice", "town"⟩ = ["x", "y"] ∧
    (∀ s, s ∈ ignored_segment_ids
        (update_ignored_segments (update_ignored_segments c9Db c9Sc) c9Sc)
        ⟨c9Sc.username, c9Sc.area_name⟩ ↔
      s ∈ ignored_segment_ids c9Db ⟨c9Sc.username, c9Sc.area_name⟩) :=
  ⟨by decide, by decide,
    (c9_ignored_toggle_symmetric_difference c9Db c9Sc (by decide)).2⟩

theorem charsLe_refl : ∀ l : List Char, charsLe l l = true
  | [] => rfl
  | c :: cs => by simp [charsLe, charsLe_refl cs]

theorem strLe_refl (a : String) : strLe a a = true := charsLe_refl a.data

theorem insertByDate_length (x : String × String × Nat) :
    ∀ l, (insertByDate x l).length = l.length + 1 := by
  intro l
  induction l with
  | nil => rfl
  | cons y ys ih =>
    unfold insertByDate
    by_cases h : strLe x.1 y.1 <;> simp [h, ih]

theorem orderByDate_length (l : List (String × String × Nat)) :
    (orderByDate l).length = l.length := by
  unfold orderByDate
  induction l with
  | nil => rfl
  | cons y ys ih => simp [List.foldr_cons, insertByDate_length, ih]

/-- C8 amended: if a run with at least one traversal record is already
stored for the date in the area, a second submission with
`allow_multiple = false` returns the 400 conflict outcome and leaves the
store (and hence the set of runs persisted for that date) exactly as it
was. -/
theorem c8_store_run_conflict (db : RunningDatabase) (area : BaseRunArea)
    (run : LoggedRun)
    (h_allow : run.allow_multiple = false)
    (h_existing : ∃ lr ∈ db.logged_runs, lr.username = area.username ∧
      lr.area_name = area.area_name ∧ lr.date = run.date ∧
      ∃ st ∈ db.segment_traversals, st.run_id = lr.id) :
    store_run db area run = some (db, 400) := by
  have hexists : exists_run_on_date db area run.date = true := by
    rcases h_existing with ⟨lr, hlr, hu, ha, hd, st, hst, hrid⟩
    unfold exists_run_on_date run_on_date runs_in_date_range
    have hpred : (dateFilter (some run.date) (some run.date) lr.date
        && decide (lr.username = area.username)
        && decide (lr.area_name = area.area_name)
        && decide (st.run_id = lr.id)) = true := by
      simp [dateFilter, hd, hu, ha, hrid, strLe_refl]
    have hmem : (lr.date, st.segment_id, st.traversals) ∈
        ((db.segment_traversals.map (fun st =>
          (db.logged_runs.filter (fun lr =>
            dateFilter (some run.date) (some run.date) lr.date
              && decide (lr.username = area.username)
              && decide (lr.area_name = area.area_name)
              && decide (st.run_id = lr.id))).map
            (fun lr => (lr.date, st.segment_id, st.traversals)))).flatten) := by
      rw [List.mem_flatten]
      refine ⟨(db.logged_runs.filter (fun lr =>
        dateFilter (some run.date) (some run.date) lr.date
          && decide (lr.username = area.username)
          && decide (lr.area_name = area.area_name)
          && decide (st.run_id = lr.id))).map
        (fun lr => (lr.date, st.segment_id, st.traversals)),
        List.mem_map_of_mem _ hst, ?_⟩
      exact List.mem_map_of_mem _ (List.mem_filter.mpr ⟨hlr, hpred⟩)
    have hpos : 0 < (orderByDate ((db.segment_traversals.map (fun st =>
        (db.logged_runs.filter (fun lr =>
          dateFilter (some run.date) (some run.date) lr.date
            && decide (lr.username = area.username)
            && decide (lr.area_name = area.area_name)
            && decide (st.run_id = lr.id))).map
          (fun lr => (lr.date, st.segment_id, st.traversals)))).flatten)).length := by
      rw [orderByDate_length]
      exact List.length_pos.mpr (List.ne_nil_of_mem hmem)
    simp only [Bool.not_eq_true']
    rw [List.isEmpty_eq_false_iff_exists_mem]
    rcases List.exists_mem_of_length_pos hpos with ⟨a, hamem⟩
    exact ⟨a, hamem⟩
  unfold store_run
  rw [h_allow, hexists]
  rfl

/-- A store holding exactly one run on 2021-06-01 for alice/town, with a
traversal record, and an empty ignored table. -/
def c8Db : RunningDatabase :=
  ⟨[⟨0, "alice", "town", "2021-06-01", 3, none, none, none⟩],
    [⟨0, "s1", 2⟩], [], 1⟩

/-- A second run submitted for the same date with
`allow_multiple = false`. -/
def c8Run : LoggedRun :=
  ⟨"2021-06-01", 4, none, none, none, false, [("s2", 1)]⟩

/-- Witness for the amended C8: the second same-date submission is
rejected with a 400 outcome, the store is unchanged, and exactly one
run remains persisted for the date. -/
theorem c8_store_run_conflict_witness :
    store_run c8Db ⟨"alice", "town"⟩ c8Run = some (c8Db, 400) ∧
    (c8Db.logged_runs.filter (fun lr => decide (lr.date = "2021-06-01"))).length
      = 1 :=
  ⟨c8_store_run_conflict c8Db ⟨"alice", "town"⟩ c8Run (by decide)
    ⟨⟨0, "alice", "town", "2021-06-01", 3, none, none, none⟩, by decide,
      rfl, rfl, rfl, ⟨0, "s1", 2⟩, by decide, rfl⟩,
    by decide⟩

/-- A store holding one run on 2021-06-01 for alice/town but with NO
traversal records (an empty `segment_traversals` dict was submitted). -/
def c8DbNoTraversals : RunningDatabase :=
  ⟨[⟨0, "alice", "town", "2021-06-01", 3, none, none, none⟩], [], [], 1⟩

/-- Counterexample to C8 as stated: a run IS already stored for
2021-06-01, yet because `exists_run_on_date` detects runs through the
join with `segment_traversals`, a stored run without traversal records
is invisible to it: the second same-date submission with
`allow_multiple = false` is accepted with outcome 200 and a second run
is persisted for the date, instead of the claimed conflict outcome with
the store unchanged. -/
theorem c8_counterexample_traversal_free_run_not_detected :
    (∃ lr ∈ c8DbNoTraversals.logged_runs, lr.username = "alice" ∧
      lr.area_name = "town" ∧ lr.date = "2021-06-01") ∧
    c8Run.allow_multiple = false ∧
    exists_run_on_date c8DbNoTraversals ⟨"alice", "town"⟩ "2021-06-01"
      = false ∧
    (store_run c8DbNoTraversals ⟨"alice", "town"⟩ c8Run).map (·.2)
      = some 200 ∧
    (store_run c8DbNoTraversals ⟨"alice", "town"⟩ c8Run).map
      (fun r => (r.1.logged_runs.filter
        (fun lr => decide (lr.date = "2021-06-01"))).length) = some 2 := by
  refine ⟨⟨⟨0, "alice", "town", "2021-06-01", 3, none, none, none⟩,
    by decide, rfl, rfl, rfl⟩, rfl, by decide, by decide, by decide⟩

/-! ## Duration parsing (C10) -/

theorem digitChar_isDigit {d : Nat} (hd : d < 10) :
    (Nat.digitChar d).isDigit = true := by
  interval_cases d <;> decide

theorem decChars_all_isDigit (n : Nat) :
    (decChars n).all (fun c => c.isDigit) = true := by
  rw [decChars_eq]
  split
  · decide
  · rw [List.all_eq_true]
    intro c hc
    simp only [List.mem_map, List.mem_reverse] at hc
    obtain ⟨d, hd, hdc⟩ := hc
    rw [← hdc]
    exact digitChar_isDigit (Nat.digits_lt_base (by norm_num) hd)

theorem foldl_map_digitChar (l : List Nat) (hl : ∀ d ∈ l, d < 10) :
    ∀ acc : Nat, (l.map Nat.digitChar).foldl
        (fun acc c => 10 * acc + (c.toNat - 48)) acc
      = l.foldl (fun acc d => 10 * acc + d) acc := by
  induction l with
  | nil => intro acc; rfl
  | cons d t ih =>
    intro acc
    simp only [List.map_cons, List.foldl_cons]
    rw [digitChar_decode (hl d (by simp))]
    exact ih (fun x hx => hl x (by simp [hx])) _

theorem foldl_reverse_ofDigits : ∀ l : List Nat,
    l.reverse.foldl (fun acc d => 10 * acc + d) 0 = Nat.ofDigits 10 l := by
  intro l
  induction l with
  | nil => simp [Nat.ofDigits_nil]
  | cons d t ih =>
    rw [List.reverse_cons, List.foldl_append, ih, Nat.ofDigits_cons]
    simp
    ring

theorem parseIntDigits_decChars (n : Nat) :
    parseIntDigits (decChars n) = some n := by
  unfold parseIntDigits
  have hne : decChars n ≠ [] := by
    rw [decChars_eq]
    split
    · simp
    · simp only [ne_eq, List.map_eq_nil_iff, List.reverse_eq_nil_iff]
      rename_i h0
      exact Nat.digits_ne_nil_iff_ne_zero.mpr h0
  rw [if_neg (by simpa [List.isEmpty_iff] using hne),
    if_pos (decChars_all_isDigit n)]
  congr 1
  rw [decChars_eq]
  by_cases h0 : n = 0
  · simp [h0]
  · rw [if_neg h0, foldl_map_digitChar _
      (fun d hd => Nat.digits_lt_base (by norm_num) (List.mem_reverse.mp hd)),
      foldl_reverse_ofDigits, Nat.ofDigits_digits]

/-- A two-character decimal field of the test duration string. -/
def padTwoDigits (n : Nat) : List Char :=
  if n < 10 then ['0', Nat.digitChar n] else decChars n

theorem padTwoDigits_length {n : Nat} (hn : n < 100) :
    (padTwoDigits n).length = 2 := by
  unfold padTwoDigits
  split
  · rfl
  · rename_i h10
    push_neg at h10
    have h0 : n ≠ 0 := by omega
    rw [decChars_eq, if_neg h0]
    simp only [List.length_map, List.length_reverse]
    rw [Nat.digits_len 10 n (by norm_num) h0]
    have : Nat.log 10 n = 1 :=
      Nat.log_eq_of_pow_le_of_lt_pow (by simpa using h10) (by simpa using hn)
    omega

theorem parseIntDigits_padTwoDigits {n : Nat} (hn : n < 100) :
    parseIntDigits (padTwoDigits n) = some n := by
  unfold padTwoDigits
  split
  · rename_i h10
    unfold parseIntDigits
    rw [if_neg (by simp), if_pos (by simp [digitChar_isDigit h10])]
    simp only [List.foldl_cons, List.foldl_nil]
    rw [digitChar_decode h10]
    have h48 : '0'.toNat - 48 = 0 := by decide
    rw [h48]
    norm_num
  · exact parseIntDigits_decChars n

/-- Builds a duration string `'HH:MM:SS.F'`, the format of `models.LoggedRun`. -/
def mkDurationString (h m s f : Nat) : String :=
  ⟨(padTwoDigits h ++ [':']) ++ ((padTwoDigits m ++ [':'])
    ++ ((padTwoDigits s ++ ['.']) ++ decChars f))⟩

theorem take_two_of_append {p : List Char} (c : Char) (rest : List Char)
    (hp : p.length = 2) : ((p ++ [c]) ++ rest).take 2 = p := by
  rw [List.append_assoc]
  rw [← hp]
  exact List.take_left p ([c] ++ rest)

theorem drop_three_of_append {p : List Char} (c : Char) (rest : List Char)
    (hp : p.length = 2) : ((p ++ [c]) ++ rest).drop 3 = rest := by
  have h3 : (p ++ [c]).length = 3 := by simp [hp]
  rw [← h3]
  exact List.drop_left (p ++ [c]) rest

theorem c10_slices (h m s f : Nat) (hh : h < 100) (hm : m < 100)
    (hs : s < 100) :
    (mkDurationString h m s f).data.take 2 = padTwoDigits h ∧
    ((mkDurationString h m s f).data.drop 3).take 2 = padTwoDigits m ∧
    ((mkDurationString h m s f).data.drop 6).take 2 = padTwoDigits s ∧
    (mkDurationString h m s f).data.drop 9 = decChars f := by
  have hdata : (mkDurationString h m s f).data
      = (padTwoDigits h ++ [':']) ++ ((padTwoDigits m ++ [':'])
        ++ ((padTwoDigits s ++ ['.']) ++ decChars f)) := rfl
  have hd3 : (mkDurationString h m s f).data.drop 3
      = (padTwoDigits m ++ [':']) ++ ((padTwoDigits s ++ ['.']) ++ decChars f) := by
    rw [hdata]
    exact drop_three_of_append ':' _ (padTwoDigits_length hh)
  have hd6 : (mkDurationString h m s f).data.drop 6
      = (padTwoDigits s ++ ['.']) ++ decChars f := by
    have : (mkDurationString h m s f).data.drop 6
        = ((mkDurationString h m s f).data.drop 3).drop 3 := by
      rw [List.drop_drop]
    rw [this, hd3]
    exact drop_three_of_append ':' _ (padTwoDigits_length hm)
  have hd9 : (mkDurationString h m s f).data.drop 9 = decChars f := by
    have : (mkDurationString h m s f).data.drop 9
        = ((mkDurationString h m s f).data.drop 6).drop 3 := by
      rw [List.drop_drop]
    rw [this, hd6]
    exact drop_three_of_append '.' _ (padTwoDigits_length hs)
  refine ⟨?_, ?_, ?_, hd9⟩
  · rw [hdata]
    exact take_two_of_append ':' _ (padTwoDigits_length hh)
  · rw [hd3]
    exact take_two_of_append ':' _ (padTwoDigits_length hm)
  · rw [hd6]
    exact take_two_of_append '.' _ (padTwoDigits_length hs)

/-- C10: a duration `'HH:MM:SS.F'` is converted by `get_duration_minutes`
to `60*HH + MM + SS/60 + F/6000` minutes (the last fractional-second
field contributes `F/6000`, not `F/60000`), and `store_run` persists
exactly that value — while an absent duration raises the caught
`TypeError` and is stored as a NULL duration rather than failing. -/
theorem c10_duration_minutes (h m s f : Nat) (hh : h < 100) (hm : m < 100)
    (hs : s < 100) :
    get_duration_minutes (mkDurationString h m s f)
      = some (60 * (h : ℚ) + (m : ℚ) + (s : ℚ) / 60 + (f : ℚ) / 6000) ∧
    (∀ (db : RunningDatabase) (area : BaseRunArea) (run : LoggedRun),
      run.allow_multiple = true →
      run.duration = some (mkDurationString h m s f) →
      store_run db area run = some ({ db with
        logged_runs := db.logged_runs ++ [⟨db.next_id, area.username,
          area.area_name, run.date, run.distance_miles,
          some (60 * (h : ℚ) + (m : ℚ) + (s : ℚ) / 60 + (f : ℚ) / 6000),
          run.comments, run.linestring⟩],
        segment_traversals := (db.segment_traversals
          ++ run.segment_traversals.map (fun p => ⟨db.next_id, p.1, p.2⟩)),
        next_id := db.next_id + 1 }, 200)) ∧
    (∀ (db : RunningDatabase) (area : BaseRunArea) (run : LoggedRun),
      run.allow_multiple = true → run.duration = none →
      store_run db area run = some ({ db with
        logged_runs := db.logged_runs ++ [⟨db.next_id, area.username,
          area.area_name, run.date, run.distance_miles, none,
          run.comments, run.linestring⟩],
        segment_traversals := (db.segment_traversals
          ++ run.segment_traversals.map (fun p => ⟨db.next_id, p.1, p.2⟩)),
        next_id := db.next_id + 1 }, 200)) := by
  obtain ⟨h2, h3, h5, h9⟩ := c10_slices h m s f hh hm hs
  have hparse : get_duration_minutes (mkDurationString h m s f)
      = some (60 * (h : ℚ) + (m : ℚ) + (s : ℚ) / 60 + (f : ℚ) / 6000) := by
    unfold get_duration_minutes
    rw [h2, h3, h5, h9, parseIntDigits_padTwoDigits hh,
      parseIntDigits_padTwoDigits hm, parseIntDigits_padTwoDigits hs,
      parseIntDigits_decChars]
    congr 1
    ring
  refine ⟨hparse, fun db area run hallow hdur => ?_,
    fun db area run hallow hdur => ?_⟩
  · unfold store_run
    rw [hallow]
    simp only [Bool.not_true, Bool.false_and, Bool.false_eq_true, if_false]
    rw [hdur]
    have hsd : storedDurationMinutes (some (mkDurationString h m s f))
        = some (some (60 * (h : ℚ) + (m : ℚ) + (s : ℚ) / 60 + (f : ℚ) / 6000)) := by
      show (get_duration_minutes (mkDurationString h m s f)).map some
        = some (some (60 * (h : ℚ) + (m : ℚ) + (s : ℚ) / 60 + (f : ℚ) / 6000))
      rw [hparse]
      rfl
    rw [hsd]
  · unfold store_run
    rw [hallow]
    simp only [Bool.not_true, Bool.false_and, Bool.false_eq_true, if_false]
    rw [hdur]
    rfl

/-- Witness for C10: `'01:02:03.45'` parses to
`60 + 2 + 3/60 + 45/6000 = 24823/400` minutes. -/
theorem c10_duration_minutes_witness :
    mkDurationString 1 2 3 45 = "01:02:03.45" ∧
    get_duration_minutes "01:02:03.45" = some (24823 / 400) := by
  have hp := (c10_duration_minutes 1 2 3 45 (by norm_num) (by norm_num)
    (by norm_num)).1
  refine ⟨by decide, ?_⟩
  have hstr : "01:02:03.45" = mkDurationString 1 2 3 45 := by decide
  rw [hstr, hp]
  norm_num

end RunningApp
